import Mathlib

/-!
Shallow embedding of the generation-orchestration subsystem of the
self-exciting repository: the session store (`src/lib/salience/store/
session-store.ts`), the job queue and generation pipeline
(`src/lib/salience/pipeline.ts`), the event emitters
(`src/lib/salience/events.ts`) and the enqueue route
(`src/app/api/salience/session/[sessionId]/stream/route.ts`, POST generate).

Conventions: JS numbers are modelled as `Rat`, JS `Date` values by their
observable ISO-rendered fields, `Map`/`Set` by association lists with the
operations the code performs, and `Partial<T>` merge objects by structures
of `Option` fields.  Fallible operations return `Option`/`Except`.
-/

namespace SelfExciting

/-- Observable content of a JS `Date`: the fields its ISO serialization
(`toJSON`) renders, each bounded by the digit width used in rendering. -/
structure Date where
  year : Fin 10000
  month : Fin 100
  day : Fin 100
  hour : Fin 100
  minute : Fin 100
  second : Fin 100
  millis : Fin 1000
deriving DecidableEq, Repr

/-- `SessionState` from `src/types/salience.ts`. -/
inductive SessionState where
  | initializing
  | references_uploaded
  | analyzing
  | directions_planned
  | generating
  | idle
  | error
deriving DecidableEq, Repr

/-- `SessionMode` from `src/types/salience.ts`. -/
inductive SessionMode where
  | character_design
  | assets
  | story_frames
  | evolutionary_progress
  | pm_flow
deriving DecidableEq, Repr

/-- `NodeStatus` from `src/types/salience.ts`. -/
inductive NodeStatus where
  | pending
  | queued
  | generating
  | complete
  | error
deriving DecidableEq, Repr

/-- `MediaType` from `src/types/salience.ts`. -/
inductive MediaType where
  | image
  | video
deriving DecidableEq, Repr

/-- `ModelType` from `src/types/salience.ts`: the two model id strings. -/
inductive ModelType where
  | gptImage15
  | sora2
deriving DecidableEq, Repr

/-- `SalienceAxis` from `src/types/salience.ts`. -/
structure SalienceAxis where
  name : String
  weight : Rat
  value : Rat
  polarities : String × String
deriving DecidableEq, Repr

/-- `SalienceProfile` from `src/types/salience.ts`. -/
structure SalienceProfile where
  axes : List SalienceAxis
  styleTags : List String
  avoidTags : List String
  compositionNotes : List String
  moodNotes : List String
  colorNotes : List String
  explanationShort : String
  extractedAt : Date
deriving DecidableEq, Repr

/-- `AxisDelta` from `src/types/salience.ts`. -/
structure AxisDelta where
  axis : String
  strength : Rat
deriving DecidableEq, Repr

/-- `DirectionVector` from `src/types/salience.ts`. -/
structure DirectionVector where
  pushAxes : List AxisDelta
  pullAxes : List AxisDelta
  styleTags : List String
  avoidTags : List String
deriving DecidableEq, Repr

/-- `PromptSkeleton` from `src/types/salience.ts`. -/
structure PromptSkeleton where
  coreSubject : String
  sceneComposition : String
  styleAndMood : String
  constraints : List String
deriving DecidableEq, Repr

/-- `PromptMeta` from `src/types/salience.ts` (`aspect` is the
`aspectRatio` string field, e.g. "1:1"). -/
structure PromptMeta where
  aspect : String
  seed : Int
  styleStrength : Rat
  guidance : Rat
  duration : Option Rat
  fps : Option Rat
deriving DecidableEq, Repr

/-- `GenerationNode` from `src/types/salience.ts`. -/
structure GenerationNode where
  id : String
  directionId : String
  depth : Nat
  status : NodeStatus
  mediaType : MediaType
  model : ModelType
  prompt : Option String
  promptMeta : Option PromptMeta
  negative : List String
  explanationShort : Option String
  outputUrl : Option String
  thumbnailUrl : Option String
  progress : Rat
  streamingContent : Option String
  error : Option String
  isPinned : Bool
  parentNodeId : Option String
  salienceDelta : List AxisDelta
  createdAt : Date
  completedAt : Option Date
deriving DecidableEq, Repr

/-- `Direction` from `src/types/salience.ts`. -/
structure Direction where
  id : String
  index : Nat
  label : String
  intent : String
  vector : DirectionVector
  promptSkeleton : PromptSkeleton
  nodes : List GenerationNode
  createdAt : Date
deriving DecidableEq, Repr

/-- `PreferenceState` from `src/types/salience.ts` (`Record` fields as
association lists). -/
structure PreferenceState where
  weights : List (String × Rat)
  explorationRate : Rat
  styleAffinities : List (String × Rat)
  updatedAt : Date
deriving DecidableEq, Repr

/-- `Session` from `src/types/salience.ts`. -/
structure Session where
  id : String
  mode : SessionMode
  state : SessionState
  referenceUrls : List String
  caption : String
  salienceProfile : Option SalienceProfile
  directions : List Direction
  preferences : PreferenceState
  createdAt : Date
  updatedAt : Date
deriving DecidableEq, Repr

/-! ## JSON model

`JValue` represents a JS runtime value tree as it flows through
`JSON.stringify` / `JSON.parse(…, reviver)` in `session-store.ts`.
A serialized file's contents are represented by the parse tree of its
JSON text (`stringifyJ` of the in-memory tree), which is faithful since
JSON text and tree are in bijection for the values involved. -/

inductive JValue where
  | jnull
  | jbool (b : Bool)
  | jnum (q : Rat)
  | jstr (s : String)
  | jdate (d : Option Date)
  | jarr (xs : List JValue)
  | jobj (fields : List (String × JValue))

/-- The character for a decimal digit (`0`–`9`). -/
def digitChar (n : Nat) : Char := Char.ofNat (48 + n)

/-- Zero-padded 2-digit rendering, as `Date.prototype.toISOString`. -/
def pad2 (n : Nat) : List Char := [digitChar (n / 10 % 10), digitChar (n % 10)]

/-- Zero-padded 3-digit rendering. -/
def pad3 (n : Nat) : List Char :=
  [digitChar (n / 100 % 10), digitChar (n / 10 % 10), digitChar (n % 10)]

/-- Zero-padded 4-digit rendering. -/
def pad4 (n : Nat) : List Char :=
  [digitChar (n / 1000 % 10), digitChar (n / 100 % 10), digitChar (n / 10 % 10),
    digitChar (n % 10)]

/-- The character list of `Date.prototype.toJSON`, i.e. the ISO string
`YYYY-MM-DDTHH:MM:SS.mmmZ` that `JSON.stringify` produces for a `Date`. -/
def isoChars (d : Date) : List Char :=
  pad4 d.year ++ '-' :: pad2 d.month ++ '-' :: pad2 d.day ++
    'T' :: pad2 d.hour ++ ':' :: pad2 d.minute ++ ':' :: pad2 d.second ++
    '.' :: pad3 d.millis ++ ['Z']

/-- ISO string of a date. -/
def Date.toIso (d : Date) : String := ⟨isoChars d⟩

/-- Numeric value of a decimal digit character, if it is one. -/
def digitVal (c : Char) : Option Nat :=
  if 48 ≤ c.toNat ∧ c.toNat ≤ 57 then some (c.toNat - 48) else none

/-- Build a `Fin` by reduction modulo the bound. -/
def mkFin (bound : Nat) (h : 0 < bound) (n : Nat) : Fin bound :=
  ⟨n % bound, Nat.mod_lt _ h⟩

/-- Read two decimal digit characters. -/
def parse2 : List Char → Option (Nat × List Char)
  | a :: b :: rest => do
    let x ← digitVal a
    let y ← digitVal b
    pure (10 * x + y, rest)
  | _ => none

/-- Read three decimal digit characters. -/
def parse3 : List Char → Option (Nat × List Char)
  | a :: b :: c :: rest => do
    let x ← digitVal a
    let y ← digitVal b
    let z ← digitVal c
    pure (100 * x + 10 * y + z, rest)
  | _ => none

/-- Read four decimal digit characters. -/
def parse4 : List Char → Option (Nat × List Char)
  | a :: b :: c :: d :: rest => do
    let x ← digitVal a
    let y ← digitVal b
    let z ← digitVal c
    let w ← digitVal d
    pure (1000 * x + 100 * y + 10 * z + w, rest)
  | _ => none

/-- Consume one expected character. -/
def expectChar (c : Char) : List Char → Option (List Char)
  | a :: rest => if a = c then some rest else none
  | _ => none

/-- Parse of the optional `.mmm` milliseconds and optional `Z` suffix
after the seconds of an ISO timestamp. -/
def parseMsTail : List Char → Option Nat
  | [] => some 0
  | ['Z'] => some 0
  | '.' :: rest => do
    let (p, tail) ← parse3 rest
    if tail = [] ∨ tail = ['Z'] then pure p else none
  | _ => none

/-- Parse of the ISO timestamp forms accepted back into a date by
`new Date(value)` in the reviver: `YYYY-MM-DDTHH:MM:SS`, optionally
followed by `.mmm`, optionally followed by `Z`.  Other strings that merely
match the reviver's prefix regex produce an invalid date (`none`). -/
def parseIsoChars (l : List Char) : Option Date := do
  let (y, r1) ← parse4 l
  let r2 ← expectChar '-' r1
  let (mo, r3) ← parse2 r2
  let r4 ← expectChar '-' r3
  let (dy, r5) ← parse2 r4
  let r6 ← expectChar 'T' r5
  let (h, r7) ← parse2 r6
  let r8 ← expectChar ':' r7
  let (mi, r9) ← parse2 r8
  let r10 ← expectChar ':' r9
  let (s, r11) ← parse2 r10
  let ms ← parseMsTail r11
  pure
    { year := mkFin 10000 (by norm_num) y
      month := mkFin 100 (by norm_num) mo
      day := mkFin 100 (by norm_num) dy
      hour := mkFin 100 (by norm_num) h
      minute := mkFin 100 (by norm_num) mi
      second := mkFin 100 (by norm_num) s
      millis := mkFin 1000 (by norm_num) ms }

/-- The reviver's regex test
`/^\d{4}-\d{2}-\d{2}T\d{2}:\d{2}:\d{2}/.test(value)`. -/
def matchesTimestamp (l : List Char) : Bool :=
  (do
    let (_, r1) ← parse4 l
    let r2 ← expectChar '-' r1
    let (_, r3) ← parse2 r2
    let r4 ← expectChar '-' r3
    let (_, r5) ← parse2 r4
    let r6 ← expectChar 'T' r5
    let (_, r7) ← parse2 r6
    let r8 ← expectChar ':' r7
    let (_, r9) ← parse2 r8
    let r10 ← expectChar ':' r9
    let (_, _) ← parse2 r10
    pure () : Option Unit).isSome

/-- `JSON.stringify` on a value tree: dates serialize via `toJSON` to
their ISO string (an invalid date serializes to `null`); everything else
keeps its shape. -/
def stringifyJ : JValue → JValue
  | .jnull => .jnull
  | .jbool b => .jbool b
  | .jnum q => .jnum q
  | .jstr s => .jstr s
  | .jdate (some d) => .jstr d.toIso
  | .jdate none => .jnull
  | .jarr xs => .jarr (stringifyList xs)
  | .jobj fs => .jobj (stringifyFields fs)
where
  stringifyList : List JValue → List JValue
    | [] => []
    | x :: xs => stringifyJ x :: stringifyList xs
  stringifyFields : List (String × JValue) → List (String × JValue)
    | [] => []
    | (k, v) :: fs => (k, stringifyJ v) :: stringifyFields fs

/-- `JSON.parse(content, reviver)` on a parsed tree: the reviver in
`session-store.ts` converts every string matching the timestamp prefix
regex into a `Date`. -/
def reviveJ : JValue → JValue
  | .jnull => .jnull
  | .jbool b => .jbool b
  | .jnum q => .jnum q
  | .jstr s => if matchesTimestamp s.data then .jdate (parseIsoChars s.data) else .jstr s
  | .jdate d => .jdate d
  | .jarr xs => .jarr (reviveList xs)
  | .jobj fs => .jobj (reviveFields fs)
where
  reviveList : List JValue → List JValue
    | [] => []
    | x :: xs => reviveJ x :: reviveList xs
  reviveFields : List (String × JValue) → List (String × JValue)
    | [] => []
    | (k, v) :: fs => (k, reviveJ v) :: reviveFields fs

/-- A value tree is clean when none of its plain strings matches the
reviver's timestamp prefix regex (such a string would be turned into a
date on reload). -/
def cleanJ : JValue → Bool
  | .jnull => true
  | .jbool _ => true
  | .jnum _ => true
  | .jstr s => !matchesTimestamp s.data
  | .jdate _ => true
  | .jarr xs => cleanList xs
  | .jobj fs => cleanFields fs
where
  cleanList : List JValue → Bool
    | [] => true
    | x :: xs => cleanJ x && cleanList xs
  cleanFields : List (String × JValue) → Bool
    | [] => true
    | (_, v) :: fs => cleanJ v && cleanFields fs

/-- A value tree holds no invalid date (`jdate none`): `stringifyJ`
turns an invalid date into `null`, which does not revive back. -/
def validDates : JValue → Bool
  | .jnull => true
  | .jbool _ => true
  | .jnum _ => true
  | .jstr _ => true
  | .jdate d => d.isSome
  | .jarr xs => validList xs
  | .jobj fs => validFields fs
where
  validList : List JValue → Bool
    | [] => true
    | x :: xs => validDates x && validList xs
  validFields : List (String × JValue) → Bool
    | [] => true
    | (_, v) :: fs => validDates v && validFields fs

/-! ## Serialization of a `Session` to its JS value tree

`JSON.stringify(session, null, 2)` serializes the full aggregate; the
tree below is the JS value it starts from (dates still `Date` objects,
optional/`undefined` fields omitted, `null` fields `jnull`). -/

/-- String of a `SessionMode`. -/
def modeStr : SessionMode → String
  | .character_design => "character_design"
  | .assets => "assets"
  | .story_frames => "story_frames"
  | .evolutionary_progress => "evolutionary_progress"
  | .pm_flow => "pm_flow"

/-- String of a `SessionState`. -/
def stateStr : SessionState → String
  | .initializing => "initializing"
  | .references_uploaded => "references_uploaded"
  | .analyzing => "analyzing"
  | .directions_planned => "directions_planned"
  | .generating => "generating"
  | .idle => "idle"
  | .error => "error"

/-- String of a `NodeStatus`. -/
def statusStr : NodeStatus → String
  | .pending => "pending"
  | .queued => "queued"
  | .generating => "generating"
  | .complete => "complete"
  | .error => "error"

/-- String of a `MediaType`. -/
def mediaStr : MediaType → String
  | .image => "image"
  | .video => "video"

/-- String of a `ModelType` (the model id strings in `pipeline.ts`). -/
def modelStr : ModelType → String
  | .gptImage15 => "gpt-image-1.5-2025-12-16"
  | .sora2 => "sora-2-2025-10-06"

/-- A JS string array. -/
def strArrJ (l : List String) : JValue := .jarr (l.map .jstr)

/-- A nullable JS string. -/
def optStrJ : Option String → JValue
  | some s => .jstr s
  | none => .jnull

/-- A `Record<string, number>`. -/
def recordJ (l : List (String × Rat)) : JValue :=
  .jobj (l.map fun kv => (kv.1, .jnum kv.2))

/-- JS value of a `SalienceAxis`. -/
def axisToJ (a : SalienceAxis) : JValue :=
  .jobj [("name", .jstr a.name), ("weight", .jnum a.weight),
    ("value", .jnum a.value),
    ("polarities", .jarr [.jstr a.polarities.1, .jstr a.polarities.2])]

/-- JS value of a `SalienceProfile`. -/
def profileToJ (p : SalienceProfile) : JValue :=
  .jobj [("axes", .jarr (p.axes.map axisToJ)),
    ("styleTags", strArrJ p.styleTags), ("avoidTags", strArrJ p.avoidTags),
    ("compositionNotes", strArrJ p.compositionNotes),
    ("moodNotes", strArrJ p.moodNotes), ("colorNotes", strArrJ p.colorNotes),
    ("explanationShort", .jstr p.explanationShort),
    ("extractedAt", .jdate (some p.extractedAt))]

/-- JS value of an `AxisDelta`. -/
def deltaToJ (d : AxisDelta) : JValue :=
  .jobj [("axis", .jstr d.axis), ("strength", .jnum d.strength)]

/-- JS value of a `DirectionVector`. -/
def vectorToJ (v : DirectionVector) : JValue :=
  .jobj [("pushAxes", .jarr (v.pushAxes.map deltaToJ)),
    ("pullAxes", .jarr (v.pullAxes.map deltaToJ)),
    ("styleTags", strArrJ v.styleTags), ("avoidTags", strArrJ v.avoidTags)]

/-- JS value of a `PromptSkeleton`. -/
def skeletonToJ (k : PromptSkeleton) : JValue :=
  .jobj [("coreSubject", .jstr k.coreSubject),
    ("sceneComposition", .jstr k.sceneComposition),
    ("styleAndMood", .jstr k.styleAndMood),
    ("constraints", strArrJ k.constraints)]

/-- JS value of a `PromptMeta` (`undefined` video-only fields omitted). -/
def metaToJ (m : PromptMeta) : JValue :=
  .jobj ([("aspectRatio", .jstr m.aspect), ("seed", .jnum (m.seed : Rat)),
    ("styleStrength", .jnum m.styleStrength), ("guidance", .jnum m.guidance)] ++
    (match m.duration with
      | some q => [("duration", JValue.jnum q)]
      | none => []) ++
    (match m.fps with
      | some q => [("fps", JValue.jnum q)]
      | none => []))

/-- JS value of a nullable `PromptMeta`. -/
def optMetaJ : Option PromptMeta → JValue
  | some m => metaToJ m
  | none => .jnull

/-- JS value of a `GenerationNode` (`streamingContent` omitted when
absent, as `JSON.stringify` drops `undefined` properties). -/
def nodeToJ (n : GenerationNode) : JValue :=
  .jobj ([("id", .jstr n.id), ("directionId", .jstr n.directionId),
    ("depth", .jnum (n.depth : Rat)), ("status", .jstr (statusStr n.status)),
    ("mediaType", .jstr (mediaStr n.mediaType)),
    ("model", .jstr (modelStr n.model)), ("prompt", optStrJ n.prompt),
    ("promptMeta", optMetaJ n.promptMeta), ("negative", strArrJ n.negative),
    ("explanationShort", optStrJ n.explanationShort),
    ("outputUrl", optStrJ n.outputUrl),
    ("thumbnailUrl", optStrJ n.thumbnailUrl),
    ("progress", .jnum n.progress)] ++
    (match n.streamingContent with
      | some s => [("streamingContent", JValue.jstr s)]
      | none => []) ++
    [("error", optStrJ n.error), ("isPinned", .jbool n.isPinned),
    ("parentNodeId", optStrJ n.parentNodeId),
    ("salienceDelta", .jarr (n.salienceDelta.map deltaToJ)),
    ("createdAt", .jdate (some n.createdAt)),
    ("completedAt", match n.completedAt with
      | some d => JValue.jdate (some d)
      | none => JValue.jnull)])

/-- JS value of a `Direction`. -/
def directionToJ (d : Direction) : JValue :=
  .jobj [("id", .jstr d.id), ("index", .jnum (d.index : Rat)),
    ("label", .jstr d.label), ("intent", .jstr d.intent),
    ("vector", vectorToJ d.vector),
    ("promptSkeleton", skeletonToJ d.promptSkeleton),
    ("nodes", .jarr (d.nodes.map nodeToJ)),
    ("createdAt", .jdate (some d.createdAt))]

/-- JS value of a `PreferenceState`. -/
def prefsToJ (p : PreferenceState) : JValue :=
  .jobj [("weights", recordJ p.weights),
    ("explorationRate", .jnum p.explorationRate),
    ("styleAffinities", recordJ p.styleAffinities),
    ("updatedAt", .jdate (some p.updatedAt))]

/-- JS value of a full `Session` aggregate, the input of
`JSON.stringify(session, null, 2)` in `flushDirty`. -/
def sessionToJ (s : Session) : JValue :=
  .jobj [("id", .jstr s.id), ("mode", .jstr (modeStr s.mode)),
    ("state", .jstr (stateStr s.state)),
    ("referenceUrls", strArrJ s.referenceUrls), ("caption", .jstr s.caption),
    ("salienceProfile", match s.salienceProfile with
      | some p => profileToJ p
      | none => JValue.jnull),
    ("directions", .jarr (s.directions.map directionToJ)),
    ("preferences", prefsToJ s.preferences),
    ("createdAt", .jdate (some s.createdAt)),
    ("updatedAt", .jdate (some s.updatedAt))]

/-! ## The session store (`src/lib/salience/store/session-store.ts`)

The store's `Map<string, Session>` is an insertion-ordered association
list, the `Set<string>` of dirty ids an insertion-ordered duplicate-free
list, and the data directory a list of `(sessionId, parsed JSON tree)`
files.  Filesystem write outcomes are an oracle `writeOk`. -/

/-- `Partial<Session>` as used by `SessionStore.update` (the merge always
overwrites `updatedAt`, so a patch carries every other field). -/
structure SessionPatch where
  id : Option String := none
  mode : Option SessionMode := none
  state : Option SessionState := none
  referenceUrls : Option (List String) := none
  caption : Option String := none
  salienceProfile : Option (Option SalienceProfile) := none
  directions : Option (List Direction) := none
  preferences : Option PreferenceState := none
  createdAt : Option Date := none
deriving Repr

/-- The spread `{...session, ...updates, updatedAt: new Date()}`. -/
def applySessionPatch (s : Session) (p : SessionPatch) (now : Date) : Session :=
  { id := p.id.getD s.id
    mode := p.mode.getD s.mode
    state := p.state.getD s.state
    referenceUrls := p.referenceUrls.getD s.referenceUrls
    caption := p.caption.getD s.caption
    salienceProfile := p.salienceProfile.getD s.salienceProfile
    directions := p.directions.getD s.directions
    preferences := p.preferences.getD s.preferences
    createdAt := p.createdAt.getD s.createdAt
    updatedAt := now }

/-- `Partial<GenerationNode>` as used by `SessionStore.updateNode`. -/
structure NodePatch where
  id : Option String := none
  directionId : Option String := none
  depth : Option Nat := none
  status : Option NodeStatus := none
  mediaType : Option MediaType := none
  model : Option ModelType := none
  prompt : Option (Option String) := none
  promptMeta : Option (Option PromptMeta) := none
  negative : Option (List String) := none
  explanationShort : Option (Option String) := none
  outputUrl : Option (Option String) := none
  thumbnailUrl : Option (Option String) := none
  progress : Option Rat := none
  streamingContent : Option (Option String) := none
  error : Option (Option String) := none
  isPinned : Option Bool := none
  parentNodeId : Option (Option String) := none
  salienceDelta : Option (List AxisDelta) := none
  createdAt : Option Date := none
  completedAt : Option (Option Date) := none
deriving Repr

/-- The spread `{...n, ...updates}` in `updateNode`. -/
def applyNodePatch (n : GenerationNode) (p : NodePatch) : GenerationNode :=
  { id := p.id.getD n.id
    directionId := p.directionId.getD n.directionId
    depth := p.depth.getD n.depth
    status := p.status.getD n.status
    mediaType := p.mediaType.getD n.mediaType
    model := p.model.getD n.model
    prompt := p.prompt.getD n.prompt
    promptMeta := p.promptMeta.getD n.promptMeta
    negative := p.negative.getD n.negative
    explanationShort := p.explanationShort.getD n.explanationShort
    outputUrl := p.outputUrl.getD n.outputUrl
    thumbnailUrl := p.thumbnailUrl.getD n.thumbnailUrl
    progress := p.progress.getD n.progress
    streamingContent := p.streamingContent.getD n.streamingContent
    error := p.error.getD n.error
    isPinned := p.isPinned.getD n.isPinned
    parentNodeId := p.parentNodeId.getD n.parentNodeId
    salienceDelta := p.salienceDelta.getD n.salienceDelta
    createdAt := p.createdAt.getD n.createdAt
    completedAt := p.completedAt.getD n.completedAt }

/-- The in-memory part of the `SessionStore` singleton. -/
structure Store where
  sessions : List (String × Session)
  dirty : List String
deriving DecidableEq, Repr

/-- The session data directory: one file per session id. -/
abbrev FileSys := List (String × JValue)

/-- `Map.prototype.get`. -/
def lookupSession (sessions : List (String × Session)) (sessionId : String) :
    Option Session :=
  (sessions.find? (fun kv => kv.1 == sessionId)).map Prod.snd

/-- `Map.prototype.set`: overwrite in place, append when new. -/
def setSession (sessions : List (String × Session)) (sessionId : String)
    (s : Session) : List (String × Session) :=
  if sessions.any (fun kv => kv.1 == sessionId) then
    sessions.map (fun kv => if kv.1 == sessionId then (sessionId, s) else kv)
  else sessions ++ [(sessionId, s)]

/-- `Set.prototype.add` on the dirty set. -/
def addDirty (dirty : List String) (sessionId : String) : List String :=
  if sessionId ∈ dirty then dirty else dirty ++ [sessionId]

/-- `SessionStore.get`. -/
def Store.getSession (st : Store) (sessionId : String) : Option Session :=
  lookupSession st.sessions sessionId

/-- `SessionStore.update`: read, merge, stamp `updatedAt`, write back,
mark dirty. -/
def Store.update (st : Store) (sessionId : String) (updates : SessionPatch)
    (now : Date) : Option Session × Store :=
  match st.getSession sessionId with
  | none => (none, st)
  | some session =>
    let updated := applySessionPatch session updates now
    (some updated,
      { sessions := setSession st.sessions sessionId updated
        dirty := addDirty st.dirty sessionId })

/-- `SessionStore.setState`. -/
def Store.setState (st : Store) (sessionId : String) (state : SessionState)
    (now : Date) : Option Session × Store :=
  st.update sessionId { state := some state } now

/-- `SessionStore.setReferences`. -/
def Store.setReferences (st : Store) (sessionId : String) (urls : List String)
    (now : Date) : Option Session × Store :=
  match st.getSession sessionId with
  | none => (none, st)
  | some session =>
    st.update sessionId
      { referenceUrls := some urls
        state := some (if urls.length > 0 then .references_uploaded else session.state) }
      now

/-- `SessionStore.addNode`: append the node to the matching direction. -/
def Store.addNode (st : Store) (sessionId directionId : String)
    (node : GenerationNode) (now : Date) : Option Session × Store :=
  match st.getSession sessionId with
  | none => (none, st)
  | some session =>
    let directions := session.directions.map (fun d =>
      if d.id == directionId then { d with nodes := d.nodes ++ [node] } else d)
    st.update sessionId { directions := some directions } now

/-- `SessionStore.updateNode`: merge the patch into the matching node in
every direction. -/
def Store.updateNode (st : Store) (sessionId nodeId : String)
    (updates : NodePatch) (now : Date) : Option Session × Store :=
  match st.getSession sessionId with
  | none => (none, st)
  | some session =>
    let directions := session.directions.map (fun d =>
      { d with nodes := d.nodes.map (fun n =>
          if n.id == nodeId then applyNodePatch n updates else n) })
    st.update sessionId { directions := some directions } now

/-- `SessionStore.getNode`: first match scanning directions in order. -/
def Store.getNode (st : Store) (sessionId nodeId : String) :
    Option GenerationNode :=
  match st.getSession sessionId with
  | none => none
  | some session =>
    session.directions.findSome? (fun d => d.nodes.find? (fun n => n.id == nodeId))

/-- `SessionStore.getDirection`. -/
def Store.getDirection (st : Store) (sessionId directionId : String) :
    Option Direction :=
  match st.getSession sessionId with
  | none => none
  | some session => session.directions.find? (fun d => d.id == directionId)

/-- Sort key of a date, monotone in its ISO fields (`getTime` proxy). -/
def Date.key (d : Date) : Nat :=
  ((((d.year.val * 100 + d.month.val) * 100 + d.day.val) * 100 + d.hour.val) *
      100 + d.minute.val) * 100 + d.second.val

/-- `SessionStore.list`: all sessions, newest `createdAt` first. -/
def Store.list (st : Store) : List Session :=
  (st.sessions.map Prod.snd).mergeSort
    (fun a b => Nat.ble b.createdAt.key a.createdAt.key)

/-- `SessionStore.delete`: remove the in-memory entry and dirty flag when
present and unlink the file; a missing file is swallowed by the
`try/catch`, so the filesystem removal is total and the result does not
depend on the file's presence. -/
def Store.delete (st : Store) (fs : FileSys) (sessionId : String) :
    Bool × Store × FileSys :=
  if st.sessions.any (fun kv => kv.1 == sessionId) then
    (true,
      { sessions := st.sessions.filter (fun kv => kv.1 != sessionId)
        dirty := st.dirty.filter (fun x => x != sessionId) },
      fs.filter (fun kv => kv.1 != sessionId))
  else (false, st, fs)

/-- `writeFile` into the data directory: overwrite or create. -/
def setFile (fs : FileSys) (sessionId : String) (content : JValue) : FileSys :=
  if fs.any (fun kv => kv.1 == sessionId) then
    fs.map (fun kv => if kv.1 == sessionId then (sessionId, content) else kv)
  else fs ++ [(sessionId, content)]

/-- Lookup of a file's parsed contents. -/
def lookupFile (fs : FileSys) (sessionId : String) : Option JValue :=
  (fs.find? (fun kv => kv.1 == sessionId)).map Prod.snd

/-- The loop body of `flushDirty` over the snapshot `toFlush`: write each
still-present session's serialized document; on a write failure log and
re-add the id to the (already cleared) dirty set. -/
def flushLoop (sessions : List (String × Session)) (writeOk : String → Bool) :
    List String → List String → FileSys → List String × FileSys
  | [], dirty, fs => (dirty, fs)
  | sessionId :: rest, dirty, fs =>
    match lookupSession sessions sessionId with
    | some session =>
      if writeOk sessionId then
        flushLoop sessions writeOk rest dirty
          (setFile fs sessionId (stringifyJ (sessionToJ session)))
      else
        flushLoop sessions writeOk rest (addDirty dirty sessionId) fs
    | none => flushLoop sessions writeOk rest dirty fs

/-- `SessionStore.flushDirty`: snapshot the dirty set, clear it, then
write each dirty session to its own file, re-marking failures dirty. -/
def Store.flushDirty (st : Store) (fs : FileSys) (writeOk : String → Bool) :
    Store × FileSys :=
  if st.dirty = [] then (st, fs)
  else
    let (newDirty, newFs) := flushLoop st.sessions writeOk st.dirty [] fs
    ({ st with dirty := newDirty }, newFs)

/-- Field lookup on a JS object value. -/
def jGet (v : JValue) (k : String) : Option JValue :=
  match v with
  | .jobj fields => (fields.find? (fun kv => kv.1 == k)).map Prod.snd
  | _ => none

/-- `SessionStore.loadAll` on startup: parse every stored document with
the reviver and key it by the document's own `id` field (the code casts
the parsed tree to `Session` unchecked; a document whose revived `id` is
not a string is outside the model). -/
def loadAllJ (fs : FileSys) : List (String × JValue) :=
  fs.filterMap (fun kv =>
    match jGet (reviveJ kv.2) "id" with
    | some (.jstr i) => some (i, reviveJ kv.2)
    | _ => none)

/-! ## Job queue and enqueue (`src/lib/salience/pipeline.ts`) -/

/-- Job status in `pipeline.ts` (`GenerationJob.status`). -/
inductive JobStatus where
  | queued
  | processing
  | completed
  | failed
deriving DecidableEq, Repr

/-- `GenerationJob` from `pipeline.ts`. -/
structure GenerationJob where
  id : String
  sessionId : String
  directionId : String
  nodeId : String
  parentNodeId : Option String
  mediaType : MediaType
  depth : Nat
  status : JobStatus
  error : Option String
deriving DecidableEq, Repr

/-- The `GenerationNode` literal constructed by `enqueueGeneration`
(`crypto.randomUUID()` results are passed in as `nodeId`). -/
def newNode (nodeId directionId : String) (parentNodeId : Option String)
    (mediaType : MediaType) (depth : Nat) (now : Date) : GenerationNode :=
  { id := nodeId
    directionId := directionId
    depth := depth
    status := .queued
    mediaType := mediaType
    model := if mediaType = .image then .gptImage15 else .sora2
    prompt := none
    promptMeta := none
    negative := []
    explanationShort := none
    outputUrl := none
    thumbnailUrl := none
    progress := 0
    streamingContent := none
    error := none
    isPinned := false
    parentNodeId := parentNodeId
    salienceDelta := []
    createdAt := now
    completedAt := none }

/-- `enqueueGeneration`: session and direction lookups may throw; past
them the node is created and appended, a `node_created` event is
published, and the job is built for the queue.  Returns the ids, the
mutated store and the job. -/
def enqueueGeneration (st : Store) (sessionId directionId : String)
    (parentNodeId : Option String) (mediaType : MediaType) (depth : Nat)
    (nodeId jobId : String) (now : Date) :
    Except String (String × String × Store × GenerationJob) :=
  match st.getSession sessionId with
  | none => .error "Session not found"
  | some session =>
    match session.directions.find? (fun d => d.id == directionId) with
    | none => .error "Direction not found"
    | some _ =>
      let node := newNode nodeId directionId parentNodeId mediaType depth now
      let (_, st') := st.addNode sessionId directionId node now
      .ok (nodeId, jobId,  st',
        { id := jobId
          sessionId := sessionId
          directionId := directionId
          nodeId := nodeId
          parentNodeId := parentNodeId
          mediaType := mediaType
          depth := depth
          status := .queued
          error := none })

/-! ## The generate route (`POST
/api/salience/session/[sessionId]/stream`, in
`src/app/api/salience/session/[sessionId]/stream/route.ts`) -/

/-- The request body destructured by the route
(`mediaType = 'image'` default applied below). -/
structure GenerateBody where
  directionId : Option String
  parentNodeId : Option String
  mediaType : Option MediaType
  depth : Option Nat
deriving DecidableEq, Repr

/-- The route's response: a JSON error with an HTTP status, or the
success payload. -/
inductive RouteResult where
  | errorResp (status : Nat) (msg : String)
  | okResp (nodeId jobId : String) (depth : Nat) (mediaType : MediaType)
deriving DecidableEq, Repr

/-- The POST generate handler: validation in route order (missing
`directionId`, session lookup, analysis guard, direction lookup, max
depth, parent lookup), then `enqueueGeneration` and
`setState('generating')`.  Returns the response, the resulting store
state and the job pushed to the queue, if any. -/
def postGenerate (st : Store) (sessionId : String) (body : GenerateBody)
    (nodeId jobId : String) (now : Date) :
    RouteResult × Store × Option GenerationJob :=
  match body.directionId with
  | none => (.errorResp 400 "directionId is required", st, none)
  | some directionId =>
    match st.getSession sessionId with
    | none => (.errorResp 404 "Session not found", st, none)
    | some session =>
      if session.salienceProfile = none ∨ session.directions.length = 0 then
        (.errorResp 400 "Session must be analyzed before generation", st, none)
      else
        match session.directions.find? (fun d => d.id == directionId) with
        | none => (.errorResp 404 "Direction not found", st, none)
        | some direction =>
          let actualDepth := body.depth.getD (direction.nodes.length + 1)
          if actualDepth > 5 then
            (.errorResp 400 "Maximum depth reached", st, none)
          else
            let parentOk := match body.parentNodeId with
              | none => true
              | some p => (st.getNode sessionId p).isSome
            if parentOk = false then
              (.errorResp 404 "Parent node not found", st, none)
            else
              match enqueueGeneration st sessionId directionId body.parentNodeId
                  (body.mediaType.getD .image) actualDepth nodeId jobId now with
              | .error e => (.errorResp 500 e, st, none)
              | .ok (nid, jid, st1, job) =>
                let (_, st2) := st1.setState sessionId .generating now
                (.okResp nid jid actualDepth (body.mediaType.getD .image), st2, some job)

/-! ## Interleaving model of the queue and worker loop (`pipeline.ts`)

The module state is `jobQueue` (FIFO of jobs) and the `isProcessing`
flag; `processQueue` is started from `enqueueGeneration` and is the only
code that pops jobs.  JS executes each synchronous segment atomically;
the decisive segment is `processQueue`'s entry
`if (isProcessing) return; isProcessing = true`, modelled as one step.
`running` holds one entry per `processQueue` activation past that guard,
carrying the job it is currently processing (`none` while at the loop
head).  All interleavings of these steps overapproximate the real
event-loop schedules. -/

/-- A queued job's identity and mutable status for the interleaving
model. -/
structure QJob where
  id : Nat
  status : JobStatus
deriving DecidableEq, Repr

/-- `job.status = ...` by id. -/
def setStatus (jobs : List QJob) (i : Nat) (st : JobStatus) : List QJob :=
  jobs.map (fun j => if j.id = i then { j with status := st } else j)

/-- Module-level mutable state of `pipeline.ts` for the queue. -/
structure QueueState where
  jobs : List QJob
  queue : List Nat
  isProcessing : Bool
  running : List (Option Nat)
deriving DecidableEq, Repr

/-- Atomic steps of the queue subsystem. -/
inductive QStep : QueueState → QueueState → Prop where
  | enqueue (s : QueueState) (i : Nat) (hfresh : ∀ j ∈ s.jobs, j.id ≠ i) :
      QStep s { jobs := s.jobs ++ [⟨i, .queued⟩], queue := s.queue ++ [i],
                isProcessing := s.isProcessing, running := s.running }
  | workerEnter (s : QueueState) (h : s.isProcessing = false) :
      QStep s { s with isProcessing := true, running := s.running ++ [none] }
  | workerPop (s : QueueState) (i : Nat) (restQ : List Nat)
      (pre post : List (Option Nat))
      (hrun : s.running = pre ++ none :: post) (hq : s.queue = i :: restQ) :
      QStep s { jobs := setStatus s.jobs i .processing, queue := restQ,
                isProcessing := s.isProcessing,
                running := pre ++ some i :: post }
  | workerFinish (s : QueueState) (i : Nat) (ok : Bool)
      (pre post : List (Option Nat)) (hrun : s.running = pre ++ some i :: post) :
      QStep s { jobs := setStatus s.jobs i (if ok then .completed else .failed),
                queue := s.queue, isProcessing := s.isProcessing,
                running := pre ++ none :: post }
  | workerExit (s : QueueState) (pre post : List (Option Nat))
      (hrun : s.running = pre ++ none :: post) (hq : s.queue = []) :
      QStep s { jobs := s.jobs, queue := s.queue, isProcessing := false,
                running := pre ++ post }

/-- Initial module state: empty queue, idle. -/
def initQueueState : QueueState :=
  { jobs := [], queue := [], isProcessing := false, running := [] }

/-- States the queue subsystem can reach. -/
def QReach (s : QueueState) : Prop :=
  Relation.ReflTransGen QStep initQueueState s

/-- Number of jobs currently in the processing stages. -/
def processingCount (jobs : List QJob) : Nat :=
  jobs.countP (fun j => j.status == JobStatus.processing)

/-- Inductive invariant of the queue subsystem. -/
def QInv (s : QueueState) : Prop :=
  (s.isProcessing = false → s.running = []) ∧
  s.running.length ≤ 1 ∧
  (s.jobs.map QJob.id).Nodup ∧
  (∀ j ∈ s.jobs, j.status = .processing → some j.id ∈ s.running)

/-! ## Events (`src/lib/salience/events.ts`) and the pipeline stages

The pipeline publishes per-session events; we track those scoped to one
node's job.  External capability calls (`composePrompt`, `gatePrompt`,
OpenAI image/video production) are oracles whose responses are inputs of
the run; await points during which ticker callbacks may fire carry a
tick count, so a run describes one interleaving of the timer with the
pipeline. -/

/-- The `stage` tag of a `generation_progress` payload. -/
inductive Stage where
  | queued
  | composing
  | gating
  | generating
  | saving
deriving DecidableEq, Repr

/-- Events published for a node (payload fields of the emit helpers in
`events.ts`). -/
inductive NodeEvent where
  | node_created (nodeId directionId : String) (depth : Nat)
  | generation_progress (nodeId directionId : String) (progress : Rat)
      (stage : Stage) (message : String)
  | generation_complete (nodeId directionId : String) (outputUrl : String)
      (thumbnailUrl : Option String) (explanationShort : String)
  | errorEv (nodeId : Option String) (error : String)
deriving DecidableEq, Repr

/-- `PromptPackage` from `src/types/salience.ts` (the composer's
response). -/
structure PromptPackage where
  modelTarget : ModelType
  prompt : String
  negative : List String
  params : PromptMeta
  explanationShort : String
  salienceDelta : List AxisDelta
  needsRevision : Bool
  issues : List String
deriving DecidableEq, Repr

/-- `GatedPackage` from `src/types/salience.ts` (the gate's response). -/
structure GatedPackage extends PromptPackage where
  approved : Bool
  revised : Bool
  gateIssues : List String
deriving DecidableEq, Repr

/-- One observable action of the pipeline on the node: a store write
(`sessionStore.updateNode`) or an event emission. -/
inductive Effect where
  | updNode (patch : NodePatch)
  | emitEv (e : NodeEvent)

/-- `startProgressTicker`'s interval callback run `k` times from
`currentProgress = cur`: each firing, while below `endP`, advances by
`step` (capped at `endP`), writes the node's progress and emits a
progress event.  Returns the final `currentProgress` and the effects. -/
def tickerRun (nodeId directionId : String) (endP step : Rat) :
    Nat → Rat → Rat × List Effect
  | 0, cur => (cur, [])
  | k + 1, cur =>
    if cur < endP then
      let c := min (cur + step) endP
      let (cf, evs) := tickerRun nodeId directionId endP step k c
      (cf, Effect.updNode { progress := some c } ::
        Effect.emitEv (.generation_progress nodeId directionId c .generating
          "Generating...") :: evs)
    else
      tickerRun nodeId directionId endP step k cur

/-- Outcome of the image production call in `generateImage`. -/
inductive ImageResult where
  | success
  | apiFail (msg : String)
  | postFail (msg : String)
deriving DecidableEq, Repr

/-- One interleaved run of `generateImage`: ticks during the uploads-dir
await (`w1`), ticks during the OpenAI call (`w2`), and the call's
outcome (`apiFail` throws at the call; `postFail` is a missing-data or
write failure detected after the ticker stops and the 85% emit). -/
structure ImageRun where
  w1 : Nat
  w2 : Nat
  result : ImageResult
deriving Repr

/-- `generateImage`: starts the 40→90 ticker (step `(90-40)/50 = 1`),
awaits the uploads dir, emits 50%, awaits the OpenAI call, then stops
the ticker; on success emits 85% and returns the public URL; all
failures are rethrown wrapped in `Image generation failed: `. -/
def generateImageRun (sessionId nodeId directionId : String) (r : ImageRun) :
    List Effect × Except String String :=
  let step : Rat := (90 - 40) / 50
  let (c1, evs1) := tickerRun nodeId directionId 90 step r.w1 40
  let e50 := Effect.emitEv (.generation_progress nodeId directionId 50
    .generating "Creating image...")
  let (_, evs2) := tickerRun nodeId directionId 90 step r.w2 c1
  match r.result with
  | .apiFail msg =>
    (evs1 ++ e50 :: evs2, .error ("Image generation failed: " ++ msg))
  | .postFail msg =>
    (evs1 ++ e50 :: evs2 ++ [Effect.emitEv (.generation_progress nodeId
        directionId 85 .saving "Saving image...")],
      .error ("Image generation failed: " ++ msg))
  | .success =>
    (evs1 ++ e50 :: evs2 ++ [Effect.emitEv (.generation_progress nodeId
        directionId 85 .saving "Saving image...")],
      .ok ("/uploads/generated/" ++ sessionId ++ "/" ++ nodeId ++ ".png"))

/-- Outcome of one status poll in `generateVideo`'s loop: a transient
fetch error or still-rendering status retries; `done` carries the output
URL; `failed` carries the provider's message (already defaulted). -/
inductive PollOutcome where
  | retry
  | done (url : String)
  | failed (msg : String)
deriving DecidableEq, Repr

/-- One poll-loop iteration's interleaving: ticks during the 5s sleep,
ticks during the status fetch, and the poll's outcome. -/
structure PollStep where
  sleepTicks : Nat
  fetchTicks : Nat
  outcome : PollOutcome
deriving Repr

/-- The poll loop of `generateVideo`: while no URL and fewer than
`maxAttempts` attempts, sleep, increment `attempts`, emit
`50 + min(35, attempts * 0.5)`, fetch status.  Returns the final ticker
progress, the effects, and `none` when attempts ran out (timeout). -/
def videoPollLoop (nodeId directionId : String) (polls : Nat → PollStep) :
    Nat → Nat → Rat → Rat × List Effect × Option (Except String String)
  | 0, _, cur => (cur, [], none)
  | fuel + 1, attempts, cur =>
    let p := polls attempts
    let (c1, evs1) := tickerRun nodeId directionId 90 1 p.sleepTicks cur
    let att := attempts + 1
    let prog : Rat := 50 + min 35 ((att : Rat) * (1 / 2))
    let eP := Effect.emitEv (.generation_progress nodeId directionId prog
      .generating "Rendering video...")
    let (c2, evs2) := tickerRun nodeId directionId 90 1 p.fetchTicks c1
    match p.outcome with
    | .done url => (c2, evs1 ++ eP :: evs2, some (.ok url))
    | .failed msg => (c2, evs1 ++ eP :: evs2, some (.error msg))
    | .retry =>
      let (cf, evs3, res) := videoPollLoop nodeId directionId polls fuel att c2
      (cf, evs1 ++ eP :: evs2 ++ evs3, res)

/-- One interleaved run of `generateVideo`.  `apiKeyPresent = false`
reproduces the source's early throw before the `try` block: the ticker
has been started but is never stopped (the interval leaks). -/
structure VideoRun where
  apiKeyPresent : Bool
  w1 : Nat
  createOk : Option String
  w2 : Nat
  polls : Nat → PollStep
  downloadOk : Bool

/-- `generateVideo`: start the 40→90 ticker, check the API key (outside
the `try`: on failure the ticker leaks, reported as `some cur`), await
the uploads dir, emit 45%, create the generation job, emit 50%, poll up
to 120 attempts, stop the ticker, emit 88%, download and save.  Failures
inside the `try` stop the ticker and are wrapped in
`Video generation failed: `. -/
def generateVideoRun (sessionId nodeId directionId : String) (r : VideoRun) :
    List Effect × Except String String × Option Rat :=
  if r.apiKeyPresent = false then
    ([], .error "OPENAI_API_KEY is not configured", some 40)
  else
    let (c1, evs1) := tickerRun nodeId directionId 90 1 r.w1 40
    let e45 := Effect.emitEv (.generation_progress nodeId directionId 45
      .generating "Initiating video generation...")
    let (c2, evs2) := tickerRun nodeId directionId 90 1 r.w2 c1
    match r.createOk with
    | some msg =>
      (evs1 ++ e45 :: evs2, .error ("Video generation failed: " ++ msg), none)
    | none =>
      let e50 := Effect.emitEv (.generation_progress nodeId directionId 50
        .generating "Video rendering in progress...")
      let (_, evs3, res) := videoPollLoop nodeId directionId r.polls 120 0 c2
      match res with
      | none =>
        (evs1 ++ e45 :: evs2 ++ e50 :: evs3,
          .error "Video generation failed: Video generation timed out", none)
      | some (.error msg) =>
        (evs1 ++ e45 :: evs2 ++ e50 :: evs3,
          .error ("Video generation failed: " ++ msg), none)
      | some (.ok _videoUrl) =>
        let e88 := Effect.emitEv (.generation_progress nodeId directionId 88
          .saving "Downloading video...")
        if r.downloadOk then
          (evs1 ++ e45 :: evs2 ++ e50 :: evs3 ++ [e88],
            .ok ("/uploads/generated/" ++ sessionId ++ "/" ++ nodeId ++ ".mp4"),
            none)
        else
          (evs1 ++ e45 :: evs2 ++ e50 :: evs3 ++ [e88],
            .error "Video generation failed: Failed to download generated video",
            none)

/-- The oracles and interleaving of one job's pipeline run. -/
structure JobRun where
  composeResult : PromptPackage
  gateResult : GatedPackage
  imageRun : ImageRun
  videoRun : VideoRun

/-- The first effects of `processJob`: set the node generating with
progress 5 and emit the 5% and 15% composing events. -/
def startEffects (nodeId directionId : String) : List Effect :=
  [Effect.updNode { status := some .generating, progress := some 5 },
    Effect.emitEv (.generation_progress nodeId directionId 5
      .composing "Composing prompt..."),
    Effect.emitEv (.generation_progress nodeId directionId 15
      .composing "Composing prompt...")]

/-- The 30% gating event of `processJob`. -/
def gateEffect (nodeId directionId : String) : Effect :=
  Effect.emitEv (.generation_progress nodeId directionId 30 .gating
    "Validating prompt...")

/-- The prompt-attachment update (progress 40) and the 40% event. -/
def attachEffects (nodeId directionId : String) (gated : GatedPackage) :
    List Effect :=
  [Effect.updNode
    { prompt := some (some gated.prompt)
      promptMeta := some (some gated.params)
      negative := some gated.negative
      explanationShort := some (some gated.explanationShort)
      salienceDelta := some gated.salienceDelta
      progress := some 40 },
    Effect.emitEv (.generation_progress nodeId directionId 40
      .generating "Generating...")]

/-- The completion update of `processJob`. -/
def completePatch (outputUrl : String) (now : Date) : NodePatch :=
  { status := some .complete
    outputUrl := some (some outputUrl)
    thumbnailUrl := some (some outputUrl)
    progress := some 100
    completedAt := some (some now) }

/-- The tail effects of `processJob` on success: the 95% saving event,
the completion update and the `generation_complete` event. -/
def finishEffects (nodeId directionId outputUrl : String)
    (gated : GatedPackage) (now : Date) : List Effect :=
  [Effect.emitEv (.generation_progress nodeId directionId 95 .saving
      "Saving..."),
    Effect.updNode (completePatch outputUrl now),
    Effect.emitEv (.generation_complete nodeId directionId outputUrl
      (some outputUrl) gated.explanationShort)]

/-- `processJob`: look up session and direction, set the node
generating (progress 5), compose, gate, attach the gated prompt
(progress 40), produce by media type, then mark complete (progress 100)
and emit `generation_complete`.  Returns the effects, the result and
the leaked-ticker progress if the run leaked the interval. -/
def processJobRun (st : Store) (job : GenerationJob) (run : JobRun) (now : Date) :
    List Effect × Except String String × Option Rat :=
  match st.getSession job.sessionId with
  | none => ([], .error "Session not found", none)
  | some session =>
    match session.directions.find? (fun d => d.id == job.directionId) with
    | none => ([], .error "Direction not found", none)
    | some _ =>
      let pkg := run.composeResult
      if pkg.needsRevision then
        (startEffects job.nodeId job.directionId,
          .error ("Prompt composition failed: " ++
            String.intercalate "; " pkg.issues), none)
      else
        let gated := run.gateResult
        if gated.approved = false then
          (startEffects job.nodeId job.directionId ++
              [gateEffect job.nodeId job.directionId],
            .error ("Prompt rejected: " ++
              String.intercalate "; " gated.gateIssues), none)
        else
          let (prodEffs, prodRes, leak) :=
            match job.mediaType with
            | .image =>
              let (effs, res) := generateImageRun job.sessionId job.nodeId
                job.directionId run.imageRun
              (effs, res, (none : Option Rat))
            | .video => generateVideoRun job.sessionId job.nodeId
                job.directionId run.videoRun
          match prodRes with
          | .error msg =>
            (startEffects job.nodeId job.directionId ++
                gateEffect job.nodeId job.directionId ::
                attachEffects job.nodeId job.directionId gated ++ prodEffs,
              .error msg, leak)
          | .ok outputUrl =>
            (startEffects job.nodeId job.directionId ++
                gateEffect job.nodeId job.directionId ::
                attachEffects job.nodeId job.directionId gated ++ prodEffs ++
                finishEffects job.nodeId job.directionId outputUrl gated now,
              .ok outputUrl, leak)

/-- Apply one effect to the store (event emissions do not touch it). -/
def applyEffect (st : Store) (sessionId nodeId : String) (now : Date) :
    Effect → Store
  | .updNode p => (st.updateNode sessionId nodeId p now).2
  | .emitEv _ => st

/-- Apply a run's effects in order. -/
def applyEffects (st : Store) (sessionId nodeId : String) (now : Date)
    (effs : List Effect) : Store :=
  effs.foldl (fun acc e => applyEffect acc sessionId nodeId now e) st

/-- The emitted events of an effect list. -/
def emittedOf (effs : List Effect) : List NodeEvent :=
  effs.filterMap (fun e =>
    match e with
    | .emitEv ev => some ev
    | .updNode _ => none)

/-- The node patches of an effect list, in order. -/
def patchesOf (effs : List Effect) : List NodePatch :=
  effs.filterMap (fun e =>
    match e with
    | .updNode p => some p
    | .emitEv _ => none)

/-- The node update written by `processQueue`'s catch on a job failure. -/
def failPatch (msg : String) : NodePatch :=
  { status := some .error, error := some (some msg) }

/-- The failure handling of `processQueue`'s catch: record the error on
the node, then publish the `error` event. -/
def failEffects (nodeId msg : String) : List Effect :=
  [Effect.updNode (failPatch msg), Effect.emitEv (.errorEv (some nodeId) msg)]

/-- The further firings of a ticker whose interval was never cleared
(video early-throw path): `leakTicks` callbacks after the job ended. -/
def leakEffects (nodeId directionId : String) (leak : Option Rat)
    (leakTicks : Nat) : List Effect :=
  match leak with
  | some cur => (tickerRun nodeId directionId 90 1 leakTicks cur).2
  | none => []

/-- One iteration of `processQueue`'s drain loop on one job: run
`processJob`; on success mark the job completed; on failure mark it
failed, record the message on the node (`status = error`), and publish
an `error` event.  A leaked ticker contributes `leakTicks` further
firings after the failure.  Returns the store, this job's effects
(including the failure handling) and the job's final record. -/
def queueStep (st : Store) (job : GenerationJob) (run : JobRun)
    (leakTicks : Nat) (now : Date) : Store × List Effect × GenerationJob :=
  let (effs, res, leak) := processJobRun st job run now
  match res with
  | .ok _ =>
    (applyEffects st job.sessionId job.nodeId now effs, effs,
      { job with status := .completed })
  | .error msg =>
    let allEffs := effs ++ failEffects job.nodeId msg ++
      leakEffects job.nodeId job.directionId leak leakTicks
    (applyEffects st job.sessionId job.nodeId now allEffs, allEffs,
      { job with status := .failed, error := some msg })

/-- All events observable for one node across its job: the
`node_created` published by `enqueueGeneration` followed by the job
run's emissions. -/
def jobTrace (st : Store) (job : GenerationJob) (run : JobRun)
    (leakTicks : Nat) (now : Date) : List NodeEvent :=
  NodeEvent.node_created job.nodeId job.directionId job.depth ::
    emittedOf (queueStep st job run leakTicks now).2.1

/-- The drain loop of `processQueue` over the whole queue: jobs are
shifted and processed one at a time; a failure never stops the loop. -/
def processQueueRun (now : Date) :
    Store → List (GenerationJob × JobRun × Nat) →
    Store × List GenerationJob
  | st, [] => (st, [])
  | st, (job, run, leakTicks) :: rest =>
    let (st1, _, job1) := queueStep st job run leakTicks now
    let (st2, jobs) := processQueueRun now st1 rest
    (st2, job1 :: jobs)

/-! ## Derived observables -/

/-- The sequence of values written to the node's stored `progress` field
by an effect list, in order. -/
def progressWritesOf (effs : List Effect) : List Rat :=
  (patchesOf effs).filterMap NodePatch.progress

/-- The node state after folding an effect list's patches into `n0`
(`updateNode` merges in order). -/
def nodeAfter (effs : List Effect) (n0 : GenerationNode) : GenerationNode :=
  (patchesOf effs).foldl applyNodePatch n0

/-- Whether an event is a `generation_progress`. -/
def isProgressEvent : NodeEvent → Bool
  | .generation_progress _ _ _ _ _ => true
  | _ => false

/-- Whether an event is terminal for a node (`generation_complete` or
`error`). -/
def isTerminalEvent : NodeEvent → Bool
  | .generation_complete _ _ _ _ _ => true
  | .errorEv _ _ => true
  | _ => false

/-- The progress figures carried by a trace's `generation_progress`
events, in publication order. -/
def eventProgressValues (tr : List NodeEvent) : List Rat :=
  tr.filterMap (fun e =>
    match e with
    | .generation_progress _ _ p _ _ => some p
    | _ => none)

/-- Whether every event an effect list emits is a `generation_progress`
(store writes are ignored). -/
def allProgress : List Effect → Bool
  | [] => true
  | .updNode _ :: l => allProgress l
  | .emitEv e :: l => isProgressEvent e && allProgress l

/-! ## Concrete fixtures -/

/-- A fixed date. -/
def epochDate : Date :=
  { year := 0, month := 1, day := 1, hour := 0, minute := 0, second := 0,
    millis := 0 }

/-- A later date. -/
def date2025 : Date :=
  { year := 2025, month := 1, day := 10, hour := 12, minute := 30, second := 5,
    millis := 250 }

/-- Default preferences as `SessionStore.create` builds them. -/
def defaultPrefs : PreferenceState :=
  { weights := [], explorationRate := 3 / 10, styleAffinities := [],
    updatedAt := epochDate }

/-- An empty direction vector. -/
def sampleVector : DirectionVector :=
  { pushAxes := [], pullAxes := [], styleTags := [], avoidTags := [] }

/-- A prompt skeleton. -/
def sampleSkeleton : PromptSkeleton :=
  { coreSubject := "subject", sceneComposition := "composition",
    styleAndMood := "mood", constraints := [] }

/-- A salience profile. -/
def sampleProfile : SalienceProfile :=
  { axes := [], styleTags := [], avoidTags := [], compositionNotes := [],
    moodNotes := [], colorNotes := [], explanationShort := "profile",
    extractedAt := epochDate }

/-- A direction with no nodes yet. -/
def dir1 : Direction :=
  { id := "d1", index := 0, label := "Direction one", intent := "intent",
    vector := sampleVector, promptSkeleton := sampleSkeleton, nodes := [],
    createdAt := epochDate }

/-- An analyzed session holding `dir1`. -/
def sess1 : Session :=
  { id := "s1", mode := .character_design, state := .directions_planned,
    referenceUrls := [], caption := "a caption", salienceProfile := some sampleProfile,
    directions := [dir1], preferences := defaultPrefs, createdAt := epochDate,
    updatedAt := epochDate }

/-- A store holding `sess1`. -/
def store1 : Store := { sessions := [("s1", sess1)], dirty := [] }

/-- Generation parameters. -/
def sampleMeta : PromptMeta :=
  { aspect := "1:1", seed := 7, styleStrength := 1 / 2, guidance := 7,
    duration := none, fps := none }

/-- An approved gate response. -/
def sampleGated : GatedPackage :=
  { modelTarget := .gptImage15, prompt := "a prompt", negative := [],
    params := sampleMeta, explanationShort := "because", salienceDelta := [],
    needsRevision := false, issues := [], approved := true, revised := false,
    gateIssues := [] }

/-- A job for a node in `dir1` of `sess1`. -/
def job1 : GenerationJob :=
  { id := "j1", sessionId := "s1", directionId := "d1", nodeId := "n1",
    parentNodeId := none, mediaType := .image, depth := 1, status := .queued,
    error := none }

/-- A store where the session already holds the node `job1` targets. -/
def store1n : Store :=
  (store1.addNode "s1" "d1"
    (newNode "n1" "d1" none .image 1 epochDate) epochDate).2

/-- A video run whose oracle succeeds on the second poll. -/
def sampleVideoRun : VideoRun :=
  { apiKeyPresent := true, w1 := 0, createOk := none, w2 := 0,
    polls := fun k => if k = 0 then ⟨0, 0, .retry⟩ else ⟨1, 0, .done "u"⟩,
    downloadOk := true }

/-- An image-path run with one ticker firing during the OpenAI call. -/
def sampleRun : JobRun :=
  { composeResult := sampleGated.toPromptPackage
    gateResult := sampleGated
    imageRun := { w1 := 0, w2 := 1, result := .success }
    videoRun := sampleVideoRun }

/-- A generate request that supplies an explicit depth of 3. -/
def bodyDepth3 : GenerateBody :=
  { directionId := some "d1", parentNodeId := none, mediaType := none,
    depth := some 3 }

/-- A generate request that supplies an explicit depth of 6. -/
def bodyDepth6 : GenerateBody :=
  { directionId := some "d1", parentNodeId := none, mediaType := none,
    depth := some 6 }

/-- A generate request that omits the depth. -/
def bodyNoDepth : GenerateBody :=
  { directionId := some "d1", parentNodeId := none, mediaType := none,
    depth := none }

/-- A composer response that asks for revision. -/
def revisePkg : PromptPackage :=
  { sampleGated.toPromptPackage with needsRevision := true, issues := ["bad"] }

/-- A run whose composition oracle asks for revision. -/
def failRun : JobRun :=
  { composeResult := revisePkg
    gateResult := sampleGated
    imageRun := { w1 := 0, w2 := 0, result := .success }
    videoRun := sampleVideoRun }

/-- A session that is already generating. -/
def sessG : Session := { sess1 with state := SessionState.generating }

/-- A store holding `sessG`. -/
def storeG : Store := { sessions := [("s1", sessG)], dirty := [] }

/-- A session whose caption merely looks like a timestamp. -/
def sessBadCaption : Session :=
  { sess1 with caption := "2025-01-10T00:00:00" }

/-! ## Store lemmas -/

theorem lookupSession_cons_pos (a1 : String) (a2 : Session)
    (l : List (String × Session)) (k : String) (h : a1 = k) :
    lookupSession ((a1, a2) :: l) k = some a2 := by
  subst h
  unfold lookupSession
  rw [List.find?_cons_of_pos _ (by simp)]
  rfl

theorem lookupSession_cons_neg (a1 : String) (a2 : Session)
    (l : List (String × Session)) (k : String) (h : ¬a1 = k) :
    lookupSession ((a1, a2) :: l) k = lookupSession l k := by
  unfold lookupSession
  rw [List.find?_cons_of_neg _ (by simp [h])]

theorem lookupSession_filter_ne (l : List (String × Session)) (k : String) :
    lookupSession (l.filter (fun kv => kv.1 != k)) k = none := by
  induction l with
  | nil => rfl
  | cons a l ih =>
    obtain ⟨a1, a2⟩ := a
    by_cases h : a1 = k
    · rw [List.filter_cons_of_neg (by simp [h])]
      exact ih
    · rw [List.filter_cons_of_pos (by simp [h]), lookupSession_cons_neg _ _ _ _ h]
      exact ih

theorem lookup_map_set (l : List (String × Session)) (k : String) (v : Session) :
    lookupSession (l.map (fun kv => if kv.1 == k then (k, v) else kv)) k =
      if l.any (fun kv => kv.1 == k) then some v else none := by
  induction l with
  | nil => rfl
  | cons a l ih =>
    obtain ⟨a1, a2⟩ := a
    by_cases h : a1 = k
    · subst h
      simp only [List.map_cons, List.any_cons, beq_self_eq_true, if_true,
        Bool.true_or]
      exact lookupSession_cons_pos _ _ _ _ rfl
    · have hb : (a1 == k) = false := by simp [h]
      simp only [List.map_cons, List.any_cons, hb, Bool.false_eq_true, if_false,
        Bool.false_or]
      rw [lookupSession_cons_neg _ _ _ _ h]
      exact ih

theorem lookup_append_single (l : List (String × Session)) (k : String)
    (v : Session) (h : l.any (fun kv => kv.1 == k) = false) :
    lookupSession (l ++ [(k, v)]) k = some v := by
  induction l with
  | nil => exact lookupSession_cons_pos _ _ _ _ rfl
  | cons a l ih =>
    obtain ⟨a1, a2⟩ := a
    rw [List.any_cons, Bool.or_eq_false_iff] at h
    have ha : ¬a1 = k := by
      intro hh
      rw [show ((a1, a2).1 == k) = true by simp [hh]] at h
      exact absurd h.1 (by simp)
    rw [List.cons_append, lookupSession_cons_neg _ _ _ _ ha]
    exact ih h.2

theorem lookup_setSession_self (l : List (String × Session)) (k : String)
    (v : Session) : lookupSession (setSession l k v) k = some v := by
  unfold setSession
  by_cases h : l.any (fun kv => kv.1 == k) = true
  · rw [if_pos h, lookup_map_set, if_pos h]
  · have hf : l.any (fun kv => kv.1 == k) = false := by
      rw [Bool.eq_false_iff]
      exact h
    rw [if_neg h, lookup_append_single l k v hf]

theorem lookup_none_iff_any_false (l : List (String × Session)) (k : String) :
    lookupSession l k = none ↔ l.any (fun kv => kv.1 == k) = false := by
  induction l with
  | nil => simp [lookupSession]
  | cons a l ih =>
    obtain ⟨a1, a2⟩ := a
    by_cases h : a1 = k
    · rw [lookupSession_cons_pos _ _ _ _ h, List.any_cons]
      constructor
      · intro hc
        exact absurd hc (by simp)
      · intro hc
        rw [show ((a1, a2).1 == k) = true by simp [h]] at hc
        exact absurd hc (by simp)
    · rw [lookupSession_cons_neg _ _ _ _ h, List.any_cons,
        show ((a1, a2).1 == k) = false by simp [h], Bool.false_or]
      exact ih

theorem mem_addDirty_self (l : List String) (k : String) : k ∈ addDirty l k := by
  unfold addDirty
  by_cases h : k ∈ l
  · rwa [if_pos h]
  · rw [if_neg h]
    exact List.mem_append_right _ (List.mem_singleton.mpr rfl)

theorem mem_addDirty_of_mem (l : List String) (k x : String) (h : x ∈ l) :
    x ∈ addDirty l k := by
  unfold addDirty
  split
  · exact h
  · exact List.mem_append_left _ h

theorem mem_addDirty_iff (l : List String) (k x : String) :
    x ∈ addDirty l k ↔ x ∈ l ∨ x = k := by
  unfold addDirty
  split
  · rename_i h
    constructor
    · exact Or.inl
    · rintro (hx | rfl)
      · exact hx
      · exact h
  · simp

/-! ## C7: setReferences -/

/-- C7 (amended): for an existing session, `setReferences([])` leaves the
session's `state` at its prior value (while replacing the URL list), and
`setReferences(nonEmptyList)` always sets `state` to
`references_uploaded` — regardless of the current state, since the source
does not check whether the session is already past that state. -/
theorem c7_setReferences_state (st : Store) (sessionId : String) (s : Session)
    (urls : List String) (now : Date) (hs : st.getSession sessionId = some s) :
    (urls = [] →
      ((st.setReferences sessionId urls now).2).getSession sessionId =
        some { s with referenceUrls := urls, updatedAt := now }) ∧
    (urls ≠ [] →
      ((st.setReferences sessionId urls now).2).getSession sessionId =
        some { s with referenceUrls := urls,
                      state := SessionState.references_uploaded,
                      updatedAt := now }) := by
  have hs' : lookupSession st.sessions sessionId = some s := hs
  constructor
  · rintro rfl
    simp only [Store.setReferences, Store.update, Store.getSession, hs']
    rw [lookup_setSession_self]
    simp [applySessionPatch]
  · intro hne
    have hlen : 0 < urls.length := List.length_pos.mpr hne
    simp only [Store.setReferences, Store.update, Store.getSession, hs']
    rw [lookup_setSession_self]
    simp [applySessionPatch, hlen]

/-- C7 witness at `store1`: the empty list keeps `directions_planned`, a
non-empty list moves to `references_uploaded`. -/
theorem c7_setReferences_state_witness :
    ((store1.setReferences "s1" [] epochDate).2).getSession "s1" =
      some { sess1 with referenceUrls := [], updatedAt := epochDate } ∧
    ((store1.setReferences "s1" ["https-u1"] epochDate).2).getSession "s1" =
      some { sess1 with referenceUrls := ["https-u1"],
                        state := SessionState.references_uploaded,
                        updatedAt := epochDate } :=
  ⟨(c7_setReferences_state store1 "s1" sess1 [] epochDate rfl).1 rfl,
   (c7_setReferences_state store1 "s1" sess1 ["https-u1"] epochDate rfl).2
     (by simp)⟩

/-- C7 counterexample: a session already past `references_uploaded`
(state `generating`) is pulled back to `references_uploaded` by a
non-empty `setReferences`, where the claim says a later state is left
unchanged. -/
theorem c7_setReferences_counterexample :
    (((storeG.setReferences "s1" ["https-u1"] epochDate).2.getSession
        "s1").map Session.state = some SessionState.references_uploaded) ∧
    sessG.state = SessionState.generating ∧
    SessionState.references_uploaded ≠ SessionState.generating := by
  refine ⟨rfl, rfl, by decide⟩

/-! ## C9: delete -/

/-- C9: deleting an absent session id returns `false` and leaves every
session, every dirty flag and the filesystem untouched; deleting a
present session returns `true`, removes the entry (it no longer appears
in `list()` when keys are consistent with session ids), and the result
does not depend on whether the durable file exists. -/
theorem c9_delete (st : Store) (fs : FileSys) (sessionId : String) :
    (st.getSession sessionId = none →
      st.delete fs sessionId = (false, st, fs)) ∧
    (∀ s, st.getSession sessionId = some s →
      (st.delete fs sessionId).1 = true ∧
      ((st.delete fs sessionId).2.1).getSession sessionId = none ∧
      ((∀ kv ∈ st.sessions, kv.2.id = kv.1) →
        sessionId ∉ ((st.delete fs sessionId).2.1.list).map Session.id) ∧
      (∀ fs' : FileSys, (st.delete fs' sessionId).1 = (st.delete fs sessionId).1)) := by
  constructor
  · intro hnone
    have hany : st.sessions.any (fun kv => kv.1 == sessionId) = false :=
      (lookup_none_iff_any_false _ _).mp hnone
    simp [Store.delete, hany]
  · intro s hsome
    have hsome' : lookupSession st.sessions sessionId = some s := hsome
    have hany : st.sessions.any (fun kv => kv.1 == sessionId) = true := by
      by_contra hc
      have hf : st.sessions.any (fun kv => kv.1 == sessionId) = false := by
        rw [Bool.eq_false_iff]
        exact hc
      rw [(lookup_none_iff_any_false _ _).mpr hf] at hsome'
      exact Option.noConfusion hsome'
    refine ⟨by simp [Store.delete, hany], ?_, ?_, ?_⟩
    · simp only [Store.delete, hany, if_true, Store.getSession]
      exact lookupSession_filter_ne st.sessions sessionId
    · intro hkeys hmem
      simp only [Store.delete, hany, if_true, Store.list, List.mem_map] at hmem
      obtain ⟨sess, hsess, hid⟩ := hmem
      rw [List.mem_mergeSort, List.mem_map] at hsess
      obtain ⟨kv, hkv, hkv2⟩ := hsess
      have hkv' := List.mem_filter.mp hkv
      have : kv.1 = sessionId := by
        rw [← hkeys kv hkv'.1, hkv2, hid]
      have hne := hkv'.2
      rw [this] at hne
      simp [bne] at hne
    · intro fs'
      simp [Store.delete, hany]

/-- C9 witness at `store1`: deleting a missing id is a no-op returning
`false`; deleting `"s1"` returns `true` and removes it from `list()`. -/
theorem c9_delete_witness :
    store1.delete [] "missing" = (false, store1, []) ∧
    (store1.delete [] "s1").1 = true ∧
    "s1" ∉ (((store1.delete [] "s1").2.1).list).map Session.id :=
  ⟨(c9_delete store1 [] "missing").1 rfl,
   ((c9_delete store1 [] "s1").2 sess1 rfl).1,
   ((c9_delete store1 [] "s1").2 sess1 rfl).2.2.1 (by decide)⟩

/-! ## C10: updateNode for an unknown node id -/

/-- C10: `updateNode` on an existing session with a node id present in no
direction does not signal an error: it returns the session, leaves every
direction's node list unchanged, and still stamps a fresh `updatedAt` and
marks the session dirty. -/
theorem c10_updateNode_missing (st : Store) (sessionId nodeId : String)
    (s : Session) (patch : NodePatch) (now : Date)
    (hs : st.getSession sessionId = some s)
    (habs : ∀ d ∈ s.directions, ∀ n ∈ d.nodes, n.id ≠ nodeId) :
    (st.updateNode sessionId nodeId patch now).1 = some { s with updatedAt := now } ∧
    ((st.updateNode sessionId nodeId patch now).2).getSession sessionId =
      some { s with updatedAt := now } ∧
    sessionId ∈ ((st.updateNode sessionId nodeId patch now).2).dirty := by
  have hs' : lookupSession st.sessions sessionId = some s := hs
  have hdirs : s.directions.map (fun d =>
      { d with nodes := d.nodes.map (fun n =>
          if n.id == nodeId then applyNodePatch n patch else n) }) = s.directions := by
    conv_rhs => rw [← List.map_id s.directions]
    refine List.map_congr_left ?_
    intro d hd
    have hnodes : d.nodes.map (fun n =>
        if n.id == nodeId then applyNodePatch n patch else n) = d.nodes := by
      conv_rhs => rw [← List.map_id d.nodes]
      refine List.map_congr_left ?_
      intro n hn
      have := habs d hd n hn
      simp [this]
    rw [hnodes]
    rfl
  refine ⟨?_, ?_, ?_⟩
  · simp only [Store.updateNode, Store.update, Store.getSession, hs', hdirs]
    simp [applySessionPatch]
  · simp only [Store.updateNode, Store.update, Store.getSession, hs', hdirs]
    rw [lookup_setSession_self]
    simp [applySessionPatch]
  · simp only [Store.updateNode, Store.update, Store.getSession, hs', hdirs]
    exact mem_addDirty_self _ _

/-- C10 witness at `store1` with an unknown node id. -/
theorem c10_updateNode_missing_witness :
    (store1.updateNode "s1" "nx" { progress := some 50 } date2025).1 =
      some { sess1 with updatedAt := date2025 } ∧
    ((store1.updateNode "s1" "nx" { progress := some 50 } date2025).2).getSession
      "s1" = some { sess1 with updatedAt := date2025 } ∧
    "s1" ∈ ((store1.updateNode "s1" "nx" { progress := some 50 } date2025).2).dirty :=
  c10_updateNode_missing store1 "s1" "nx" sess1 { progress := some 50 } date2025
    rfl (by decide)

/-! ## File lemmas -/

theorem lookupFile_cons_pos (a1 : String) (a2 : JValue) (l : FileSys)
    (k : String) (h : a1 = k) : lookupFile ((a1, a2) :: l) k = some a2 := by
  subst h
  unfold lookupFile
  rw [List.find?_cons_of_pos _ (by simp)]
  rfl

theorem lookupFile_cons_neg (a1 : String) (a2 : JValue) (l : FileSys)
    (k : String) (h : ¬a1 = k) : lookupFile ((a1, a2) :: l) k = lookupFile l k := by
  unfold lookupFile
  rw [List.find?_cons_of_neg _ (by simp [h])]

theorem lookupFile_map_set (l : FileSys) (k : String) (v : JValue) :
    lookupFile (l.map (fun kv => if kv.1 == k then (k, v) else kv)) k =
      if l.any (fun kv => kv.1 == k) then some v else none := by
  induction l with
  | nil => rfl
  | cons a l ih =>
    obtain ⟨a1, a2⟩ := a
    by_cases h : a1 = k
    · subst h
      simp only [List.map_cons, List.any_cons, beq_self_eq_true, if_true,
        Bool.true_or]
      exact lookupFile_cons_pos _ _ _ _ rfl
    · have hb : (a1 == k) = false := by simp [h]
      simp only [List.map_cons, List.any_cons, hb, Bool.false_eq_true, if_false,
        Bool.false_or]
      rw [lookupFile_cons_neg _ _ _ _ h]
      exact ih

theorem lookupFile_append_single (l : FileSys) (k : String) (v : JValue)
    (h : l.any (fun kv => kv.1 == k) = false) :
    lookupFile (l ++ [(k, v)]) k = some v := by
  induction l with
  | nil => exact lookupFile_cons_pos _ _ _ _ rfl
  | cons a l ih =>
    obtain ⟨a1, a2⟩ := a
    rw [List.any_cons, Bool.or_eq_false_iff] at h
    have ha : ¬a1 = k := by
      intro hh
      rw [show ((a1, a2).1 == k) = true by simp [hh]] at h
      exact absurd h.1 (by simp)
    rw [List.cons_append, lookupFile_cons_neg _ _ _ _ ha]
    exact ih h.2

theorem lookupFile_setFile_self (l : FileSys) (k : String) (v : JValue) :
    lookupFile (setFile l k v) k = some v := by
  unfold setFile
  by_cases h : l.any (fun kv => kv.1 == k) = true
  · rw [if_pos h, lookupFile_map_set, if_pos h]
  · have hf : l.any (fun kv => kv.1 == k) = false := by
      rw [Bool.eq_false_iff]
      exact h
    rw [if_neg h, lookupFile_append_single l k v hf]

theorem lookupFile_mapset_ne (l : FileSys) (k k' : String) (v : JValue)
    (h : ¬k = k') :
    lookupFile (l.map (fun kv => if kv.1 == k then (k, v) else kv)) k' =
      lookupFile l k' := by
  induction l with
  | nil => rfl
  | cons a l ih =>
    obtain ⟨a1, a2⟩ := a
    by_cases ha : a1 = k
    · subst ha
      simp only [List.map_cons, beq_self_eq_true, if_true]
      rw [lookupFile_cons_neg _ _ _ _ h, lookupFile_cons_neg _ _ _ _ h]
      exact ih
    · have hb : (a1 == k) = false := by simp [ha]
      simp only [List.map_cons, hb, Bool.false_eq_true, if_false]
      by_cases hc : a1 = k'
      · rw [lookupFile_cons_pos _ _ _ _ hc, lookupFile_cons_pos _ _ _ _ hc]
      · rw [lookupFile_cons_neg _ _ _ _ hc, lookupFile_cons_neg _ _ _ _ hc]
        exact ih

theorem lookupFile_append_ne (l : FileSys) (k k' : String) (v : JValue)
    (h : ¬k = k') : lookupFile (l ++ [(k, v)]) k' = lookupFile l k' := by
  induction l with
  | nil =>
    rw [List.nil_append]
    exact lookupFile_cons_neg _ _ _ _ h
  | cons a l ih =>
    obtain ⟨a1, a2⟩ := a
    rw [List.cons_append]
    by_cases hc : a1 = k'
    · rw [lookupFile_cons_pos _ _ _ _ hc, lookupFile_cons_pos _ _ _ _ hc]
    · rw [lookupFile_cons_neg _ _ _ _ hc, lookupFile_cons_neg _ _ _ _ hc]
      exact ih

theorem lookupFile_setFile_ne (l : FileSys) (k k' : String) (v : JValue)
    (h : ¬k = k') : lookupFile (setFile l k v) k' = lookupFile l k' := by
  unfold setFile
  split
  · exact lookupFile_mapset_ne l k k' v h
  · exact lookupFile_append_ne l k k' v h

/-! ## flushLoop lemmas -/

theorem flushLoop_cons_found_ok (sessions : List (String × Session))
    (writeOk : String → Bool) (x : String) (rest : List String)
    (acc : List String) (fs : FileSys) (s : Session)
    (hls : lookupSession sessions x = some s) (hw : writeOk x = true) :
    flushLoop sessions writeOk (x :: rest) acc fs =
      flushLoop sessions writeOk rest acc
        (setFile fs x (stringifyJ (sessionToJ s))) := by
  simp [flushLoop, hls, hw]

theorem flushLoop_cons_found_fail (sessions : List (String × Session))
    (writeOk : String → Bool) (x : String) (rest : List String)
    (acc : List String) (fs : FileSys) (s : Session)
    (hls : lookupSession sessions x = some s) (hw : writeOk x = false) :
    flushLoop sessions writeOk (x :: rest) acc fs =
      flushLoop sessions writeOk rest (addDirty acc x) fs := by
  simp [flushLoop, hls, hw]

theorem flushLoop_cons_missing (sessions : List (String × Session))
    (writeOk : String → Bool) (x : String) (rest : List String)
    (acc : List String) (fs : FileSys)
    (hls : lookupSession sessions x = none) :
    flushLoop sessions writeOk (x :: rest) acc fs =
      flushLoop sessions writeOk rest acc fs := by
  simp [flushLoop, hls]

theorem flushLoop_not_mem (sessions : List (String × Session))
    (writeOk : String → Bool) (todo : List String) :
    ∀ acc fs k, k ∉ todo →
      lookupFile (flushLoop sessions writeOk todo acc fs).2 k = lookupFile fs k ∧
      (k ∈ (flushLoop sessions writeOk todo acc fs).1 ↔ k ∈ acc) := by
  induction todo with
  | nil => intro acc fs k _; exact ⟨rfl, Iff.rfl⟩
  | cons x rest ih =>
    intro acc fs k hk
    have hkx : ¬x = k := fun hh => hk (hh ▸ List.mem_cons_self x rest)
    have hkrest : k ∉ rest := fun hh => hk (List.mem_cons_of_mem x hh)
    cases hls : lookupSession sessions x with
    | some session =>
      by_cases hw : writeOk x = true
      · rw [flushLoop_cons_found_ok sessions writeOk x rest acc fs session hls hw]
        have := ih acc (setFile fs x (stringifyJ (sessionToJ session))) k hkrest
        rw [lookupFile_setFile_ne _ _ _ _ hkx] at this
        exact this
      · rw [flushLoop_cons_found_fail sessions writeOk x rest acc fs session hls
          (Bool.eq_false_iff.mpr hw)]
        have := ih (addDirty acc x) fs k hkrest
        refine ⟨this.1, this.2.trans ?_⟩
        rw [mem_addDirty_iff]
        constructor
        · rintro (hm | rfl)
          · exact hm
          · exact absurd rfl hkx
        · exact Or.inl
    | none =>
      rw [flushLoop_cons_missing sessions writeOk x rest acc fs hls]
      exact ih acc fs k hkrest

theorem flushLoop_success (sessions : List (String × Session))
    (writeOk : String → Bool) (todo : List String) :
    ∀ acc fs k s, todo.Nodup → k ∈ todo → k ∉ acc →
      lookupSession sessions k = some s → writeOk k = true →
      lookupFile (flushLoop sessions writeOk todo acc fs).2 k =
        some (stringifyJ (sessionToJ s)) ∧
      k ∉ (flushLoop sessions writeOk todo acc fs).1 := by
  induction todo with
  | nil => intro _ _ k _ _ hk; exact absurd hk (List.not_mem_nil k)
  | cons x rest ih =>
    intro acc fs k s hnd hk hacc hls hw
    have hnd' := List.nodup_cons.mp hnd
    rcases List.mem_cons.mp hk with rfl | hkrest
    · have hkr : k ∉ rest := hnd'.1
      rw [flushLoop_cons_found_ok sessions writeOk k rest acc fs s hls hw]
      have := flushLoop_not_mem sessions writeOk rest acc
        (setFile fs k (stringifyJ (sessionToJ s))) k hkr
      rw [lookupFile_setFile_self] at this
      exact ⟨this.1, fun hm => hacc (this.2.mp hm)⟩
    · cases hlx : lookupSession sessions x with
      | some sx =>
        by_cases hwx : writeOk x = true
        · rw [flushLoop_cons_found_ok sessions writeOk x rest acc fs sx hlx hwx]
          exact ih acc _ k s hnd'.2 hkrest hacc hls hw
        · rw [flushLoop_cons_found_fail sessions writeOk x rest acc fs sx hlx
            (Bool.eq_false_iff.mpr hwx)]
          refine ih (addDirty acc x) fs k s hnd'.2 hkrest ?_ hls hw
          rw [mem_addDirty_iff]
          rintro (hm | rfl)
          · exact hacc hm
          · exact hnd'.1 hkrest
      | none =>
        rw [flushLoop_cons_missing sessions writeOk x rest acc fs hlx]
        exact ih acc fs k s hnd'.2 hkrest hacc hls hw

theorem flushLoop_failure (sessions : List (String × Session))
    (writeOk : String → Bool) (todo : List String) :
    ∀ acc fs k s, todo.Nodup → k ∈ todo →
      lookupSession sessions k = some s → writeOk k = false →
      k ∈ (flushLoop sessions writeOk todo acc fs).1 ∧
      lookupFile (flushLoop sessions writeOk todo acc fs).2 k =
        lookupFile fs k := by
  induction todo with
  | nil => intro _ _ k _ _ hk; exact absurd hk (List.not_mem_nil k)
  | cons x rest ih =>
    intro acc fs k s hnd hk hls hw
    have hnd' := List.nodup_cons.mp hnd
    rcases List.mem_cons.mp hk with rfl | hkrest
    · have hkr : k ∉ rest := hnd'.1
      rw [flushLoop_cons_found_fail sessions writeOk k rest acc fs s hls hw]
      have := flushLoop_not_mem sessions writeOk rest (addDirty acc k) fs k hkr
      exact ⟨this.2.mpr (mem_addDirty_self acc k), this.1⟩
    · cases hlx : lookupSession sessions x with
      | some sx =>
        by_cases hwx : writeOk x = true
        · rw [flushLoop_cons_found_ok sessions writeOk x rest acc fs sx hlx hwx]
          have hxk : ¬x = k := by
            rintro rfl
            exact hnd'.1 hkrest
          have := ih acc (setFile fs x (stringifyJ (sessionToJ sx))) k s
            hnd'.2 hkrest hls hw
          rw [lookupFile_setFile_ne _ _ _ _ hxk] at this
          exact this
        · rw [flushLoop_cons_found_fail sessions writeOk x rest acc fs sx hlx
            (Bool.eq_false_iff.mpr hwx)]
          exact ih (addDirty acc x) fs k s hnd'.2 hkrest hls hw
      | none =>
        rw [flushLoop_cons_missing sessions writeOk x rest acc fs hlx]
        exact ih acc fs k s hnd'.2 hkrest hls hw

/-! ## C6: flushDirty -/

/-- C6: the periodic flush leaves the in-memory sessions untouched, and
for every dirty session still present in memory: a successful write
stores the serialized document under that session's own file and clears
its dirty flag; a failed write leaves the file as it was and re-marks
the session dirty for the next cycle. -/
theorem c6_flushDirty (st : Store) (fs : FileSys) (writeOk : String → Bool)
    (hnodup : st.dirty.Nodup) :
    ((st.flushDirty fs writeOk).1).sessions = st.sessions ∧
    (∀ sessionId ∈ st.dirty, ∀ s, st.getSession sessionId = some s →
      (writeOk sessionId = true →
        lookupFile (st.flushDirty fs writeOk).2 sessionId =
          some (stringifyJ (sessionToJ s)) ∧
        sessionId ∉ ((st.flushDirty fs writeOk).1).dirty) ∧
      (writeOk sessionId = false →
        sessionId ∈ ((st.flushDirty fs writeOk).1).dirty ∧
        lookupFile (st.flushDirty fs writeOk).2 sessionId =
          lookupFile fs sessionId)) := by
  unfold Store.flushDirty
  by_cases hd : st.dirty = []
  · rw [if_pos hd]
    refine ⟨rfl, ?_⟩
    intro sessionId hmem
    rw [hd] at hmem
    exact absurd hmem (List.not_mem_nil sessionId)
  · rw [if_neg hd]
    refine ⟨rfl, ?_⟩
    intro sessionId hmem s hsome
    have hsome' : lookupSession st.sessions sessionId = some s := hsome
    constructor
    · intro hw
      have := flushLoop_success st.sessions writeOk st.dirty [] fs sessionId s
        hnodup hmem (List.not_mem_nil sessionId) hsome' hw
      exact ⟨this.1, this.2⟩
    · intro hw
      exact flushLoop_failure st.sessions writeOk st.dirty [] fs sessionId s
        hnodup hmem hsome' hw

/-- C6 witness: flushing `store1` with `"s1"` dirty and a succeeding
write stores the document and clears the flag. -/
theorem c6_flushDirty_witness :
    lookupFile (({ sessions := [("s1", sess1)], dirty := ["s1"] } :
        Store).flushDirty [] (fun _ => true)).2 "s1" =
      some (stringifyJ (sessionToJ sess1)) ∧
    "s1" ∉ ((({ sessions := [("s1", sess1)], dirty := ["s1"] } :
        Store).flushDirty [] (fun _ => true)).1).dirty :=
  ((c6_flushDirty { sessions := [("s1", sess1)], dirty := ["s1"] } []
      (fun _ => true) (by decide)).2 "s1" (by decide) sess1 rfl).1 rfl

/-! ## Node lookup lemmas -/

theorem find?_node_none (l : List GenerationNode) (nodeId : String)
    (h : ∀ n ∈ l, n.id ≠ nodeId) :
    l.find? (fun n => n.id == nodeId) = none := by
  induction l with
  | nil => rfl
  | cons a l ih =>
    rw [List.find?_cons_of_neg _ (by simp [h a (List.mem_cons_self a l)])]
    exact ih (fun n hn => h n (List.mem_cons_of_mem a hn))

theorem find?_node_append (l : List GenerationNode) (node : GenerationNode)
    (nodeId : String) (h : ∀ n ∈ l, n.id ≠ nodeId)
    (hn : node.id = nodeId) :
    (l ++ [node]).find? (fun n => n.id == nodeId) = some node := by
  induction l with
  | nil =>
    rw [List.nil_append]
    exact List.find?_cons_of_pos _ (by simp [hn])
  | cons a l ih =>
    rw [List.cons_append,
      List.find?_cons_of_neg _ (by simp [h a (List.mem_cons_self a l)])]
    exact ih (fun n hnn => h n (List.mem_cons_of_mem a hnn))

theorem getNode_of_addNode_dirs (dirs : List Direction) (directionId nodeId : String)
    (node : GenerationNode) (hnodeid : node.id = nodeId)
    (hfresh : ∀ d' ∈ dirs, ∀ n ∈ d'.nodes, n.id ≠ nodeId)
    (hdir : ∃ d' ∈ dirs, d'.id = directionId) :
    (dirs.map (fun dd => if dd.id == directionId
        then { dd with nodes := dd.nodes ++ [node] } else dd)).findSome?
      (fun dd => dd.nodes.find? (fun n => n.id == nodeId)) = some node := by
  induction dirs with
  | nil => obtain ⟨d', hd', _⟩ := hdir; exact absurd hd' (List.not_mem_nil d')
  | cons dd rest ih =>
    by_cases hid : dd.id = directionId
    · subst hid
      simp only [List.map_cons, beq_self_eq_true, if_true]
      rw [List.findSome?_cons]
      rw [find?_node_append dd.nodes node nodeId
        (hfresh dd (List.mem_cons_self dd rest)) hnodeid]
    · have hb : (dd.id == directionId) = false := by simp [hid]
      simp only [List.map_cons, hb, Bool.false_eq_true, if_false]
      rw [List.findSome?_cons]
      rw [find?_node_none dd.nodes nodeId (hfresh dd (List.mem_cons_self dd rest))]
      refine ih (fun d' hd' => hfresh d' (List.mem_cons_of_mem dd hd')) ?_
      obtain ⟨d', hd', hd'id⟩ := hdir
      rcases List.mem_cons.mp hd' with rfl | hmem
      · exact absurd hd'id hid
      · exact ⟨d', hmem, hd'id⟩

/-! ## C1: enqueue depth and validation -/

/-- C1 (amended): in the generate route, when the request omits `depth`
the created node's depth is the direction's prior node count plus one;
when the effective depth (supplied or computed) exceeds `maxDepth = 5`
the request is rejected with the `Maximum depth reached` validation
error, before any node is created or any store mutation occurs.  (When a
request supplies an explicit `depth`, the node is created with exactly
that depth, which need not be count + 1 — see the counterexample.) -/
theorem c1_postGenerate_depth (st : Store) (sessionId : String)
    (body : GenerateBody) (nodeId jobId : String) (now : Date) (s : Session)
    (d : Direction) (hs : st.getSession sessionId = some s)
    (hdir : body.directionId = some d.id)
    (hfind : s.directions.find? (fun d' => d'.id == d.id) = some d)
    (hprof : s.salienceProfile ≠ none) :
    (body.depth.getD (d.nodes.length + 1) > 5 →
      postGenerate st sessionId body nodeId jobId now =
        (.errorResp 400 "Maximum depth reached", st, none)) ∧
    (body.depth = none → d.nodes.length + 1 ≤ 5 →
      (match body.parentNodeId with
        | none => true
        | some p => (st.getNode sessionId p).isSome) = true →
      (∀ d' ∈ s.directions, ∀ n ∈ d'.nodes, n.id ≠ nodeId) →
      (postGenerate st sessionId body nodeId jobId now).1 =
        .okResp nodeId jobId (d.nodes.length + 1) (body.mediaType.getD .image) ∧
      ((postGenerate st sessionId body nodeId jobId now).2.1).getNode sessionId
          nodeId =
        some (newNode nodeId d.id body.parentNodeId (body.mediaType.getD .image)
          (d.nodes.length + 1) now)) := by
  have hmem : d ∈ s.directions := List.mem_of_find?_eq_some hfind
  have hs' : lookupSession st.sessions sessionId = some s := hs
  have hguard : ¬(s.salienceProfile = none ∨ s.directions.length = 0) := by
    rintro (hc | hc)
    · exact hprof hc
    · rw [List.length_eq_zero] at hc
      rw [hc] at hmem
      exact absurd hmem (List.not_mem_nil d)
  constructor
  · intro hdepth
    simp only [postGenerate, hdir, hs, hfind]
    rw [if_neg hguard, if_pos hdepth]
  · intro hnone hle hpar hfresh
    have hstep : (postGenerate st sessionId body nodeId jobId now).1 =
        .okResp nodeId jobId (d.nodes.length + 1) (body.mediaType.getD .image) ∧
        ((postGenerate st sessionId body nodeId jobId now).2.1).getNode sessionId
            nodeId =
          some (newNode nodeId d.id body.parentNodeId (body.mediaType.getD .image)
            (d.nodes.length + 1) now) := by
      simp only [postGenerate, hdir, hs, hfind, hnone]
      rw [if_neg hguard]
      rw [if_neg (by simpa using hle)]
      rw [if_neg (by simp [hpar])]
      simp only [enqueueGeneration, hs, hfind]
      refine ⟨rfl, ?_⟩
      simp only [Store.setState, Store.addNode, Store.update, Store.getSession,
        hs', lookup_setSession_self]
      simp only [Store.getNode, Store.getSession, lookup_setSession_self]
      simp only [applySessionPatch, Option.getD]
      exact getNode_of_addNode_dirs s.directions d.id nodeId
        (newNode nodeId d.id body.parentNodeId (body.mediaType.getD .image)
          (d.nodes.length + 1) now)
        rfl hfresh ⟨d, hmem, rfl⟩
    exact hstep

/-- C1 witness: at `store1`, an effective depth of 6 is rejected with no
store mutation, and omitting the depth creates the node at
count + 1 = 1. -/
theorem c1_postGenerate_depth_witness :
    postGenerate store1 "s1" bodyDepth6 "n1" "j1" epochDate =
      (.errorResp 400 "Maximum depth reached", store1, none) ∧
    (postGenerate store1 "s1" bodyNoDepth "n1" "j1" epochDate).1 =
      .okResp "n1" "j1" 1 .image :=
  ⟨(c1_postGenerate_depth store1 "s1" bodyDepth6 "n1" "j1" epochDate sess1 dir1
      rfl rfl rfl (by decide)).1 (by decide),
   ((c1_postGenerate_depth store1 "s1" bodyNoDepth "n1" "j1" epochDate sess1 dir1
      rfl rfl rfl (by decide)).2 rfl (by decide) rfl (by decide)).1⟩

/-- C1 counterexample: a request that passes validation but supplies an
explicit `depth` of 3 on a direction with zero prior nodes succeeds and
creates a node of depth 3, not prior-count + 1 = 1 — the claim's
"depth equals the count of nodes already in the target direction plus 1"
fails for requests that supply a depth. -/
theorem c1_postGenerate_counterexample :
    (postGenerate store1 "s1" bodyDepth3 "n1" "j1" epochDate).1 =
      .okResp "n1" "j1" 3 .image ∧
    (((postGenerate store1 "s1" bodyDepth3 "n1" "j1" epochDate).2.1).getNode "s1"
        "n1").map GenerationNode.depth = some 3 ∧
    dir1.nodes.length + 1 = 1 ∧ (3 : Nat) ≠ 1 := by
  refine ⟨rfl, rfl, rfl, by decide⟩

/-! ## Ticker and patch lemmas -/

theorem patchesOf_append (a b : List Effect) :
    patchesOf (a ++ b) = patchesOf a ++ patchesOf b := by
  unfold patchesOf
  rw [List.filterMap_append]

theorem emittedOf_append (a b : List Effect) :
    emittedOf (a ++ b) = emittedOf a ++ emittedOf b := by
  unfold emittedOf
  rw [List.filterMap_append]

theorem tickerRun_patches (nodeId directionId : String) (endP step : Rat) :
    ∀ k cur, ∀ p ∈ patchesOf (tickerRun nodeId directionId endP step k cur).2,
      p.status = none ∧ p.error = none := by
  intro k
  induction k with
  | zero => intro cur p hp; exact absurd hp (by simp [tickerRun, patchesOf])
  | succ k ih =>
    intro cur p hp
    rw [tickerRun] at hp
    by_cases hc : cur < endP
    · rw [if_pos hc] at hp
      simp only [patchesOf, List.filterMap_cons] at hp
      simp only [List.mem_cons] at hp
      rcases hp with rfl | hp
      · exact ⟨rfl, rfl⟩
      · exact ih _ p hp
    · rw [if_neg hc] at hp
      exact ih _ p hp

theorem foldl_patches_preserve (ps : List NodePatch)
    (h : ∀ p ∈ ps, p.status = none ∧ p.error = none) :
    ∀ n0 : GenerationNode,
      (ps.foldl applyNodePatch n0).status = n0.status ∧
      (ps.foldl applyNodePatch n0).error = n0.error := by
  induction ps with
  | nil => intro n0; exact ⟨rfl, rfl⟩
  | cons p ps ih =>
    intro n0
    rw [List.foldl_cons]
    have hp := h p (List.mem_cons_self p ps)
    have := ih (fun q hq => h q (List.mem_cons_of_mem p hq)) (applyNodePatch n0 p)
    refine ⟨this.1.trans ?_, this.2.trans ?_⟩
    · simp [applyNodePatch, hp.1]
    · simp [applyNodePatch, hp.2]

/-! ## C5: job failure handling and queue continuation -/

/-- C5: a processed job always reaches a terminal status; when the
pipeline fails with `msg`, the job is marked failed with that message,
an `error` event for the node is published, and the node's folded state
is `error` carrying the message; the drain loop still processes every
queued job (none is skipped after a failure); and `enqueueGeneration`
returns `ok` whenever session and direction exist — a job's failure is
never surfaced through the enqueue call. -/
theorem c5_failure_handling :
    (∀ st job run leakTicks now,
      ((queueStep st job run leakTicks now).2.2).status = .completed ∨
      ((queueStep st job run leakTicks now).2.2).status = .failed) ∧
    (∀ st job run leakTicks now msg,
      (processJobRun st job run now).2.1 = .error msg →
      ((queueStep st job run leakTicks now).2.2) =
        { job with status := .failed, error := some msg } ∧
      NodeEvent.errorEv (some job.nodeId) msg ∈
        emittedOf (queueStep st job run leakTicks now).2.1 ∧
      (∀ n0, (nodeAfter (queueStep st job run leakTicks now).2.1 n0).status =
          .error ∧
        (nodeAfter (queueStep st job run leakTicks now).2.1 n0).error =
          some msg)) ∧
    (∀ now st queue,
      ((processQueueRun now st queue).2).map GenerationJob.id =
        queue.map (fun e => e.1.id) ∧
      ∀ j ∈ (processQueueRun now st queue).2,
        j.status = .completed ∨ j.status = .failed) ∧
    (∀ st sessionId directionId parentNodeId mediaType depth nodeId jobId now
        s d, st.getSession sessionId = some s →
      s.directions.find? (fun d' => d'.id == directionId) = some d →
      ∃ st' job, enqueueGeneration st sessionId directionId parentNodeId
        mediaType depth nodeId jobId now = .ok (nodeId, jobId, st', job)) := by
  have hstep : ∀ st job run leakTicks now,
      ((queueStep st job run leakTicks now).2.2).status = .completed ∨
      ((queueStep st job run leakTicks now).2.2).status = .failed := by
    intro st job run leakTicks now
    rcases hpr : processJobRun st job run now with ⟨effs, res, leak⟩
    cases res with
    | ok u =>
      left
      simp only [queueStep, hpr]
    | error msg =>
      right
      simp only [queueStep, hpr]
  refine ⟨hstep, ?_, ?_, ?_⟩
  · intro st job run leakTicks now msg hmsg
    rcases hpr : processJobRun st job run now with ⟨effs, res, leak⟩
    rw [hpr] at hmsg
    simp only at hmsg
    subst hmsg
    refine ⟨by simp only [queueStep, hpr], ?_, ?_⟩
    · simp only [queueStep, hpr, emittedOf_append]
      refine List.mem_append_left _ (List.mem_append_right _ ?_)
      simp [emittedOf, failEffects]
    · intro n0
      simp only [queueStep, hpr, nodeAfter, patchesOf_append, List.foldl_append]
      have hfail : ∀ a : GenerationNode,
          ((patchesOf (failEffects job.nodeId msg)).foldl
            applyNodePatch a).status = NodeStatus.error ∧
          ((patchesOf (failEffects job.nodeId msg)).foldl
            applyNodePatch a).error = some msg := by
        intro a
        constructor
        · simp [failEffects, failPatch, patchesOf, applyNodePatch]
        · simp [failEffects, failPatch, patchesOf, applyNodePatch]
      cases leak with
      | none =>
        simp only [leakEffects, patchesOf, List.filterMap_nil, List.foldl_nil]
        exact hfail _
      | some cur =>
        simp only [leakEffects]
        have hpres := foldl_patches_preserve
          (patchesOf (tickerRun job.nodeId job.directionId 90 1 leakTicks cur).2)
          (tickerRun_patches _ _ _ _ leakTicks cur)
        refine ⟨(hpres _).1.trans (hfail _).1, (hpres _).2.trans (hfail _).2⟩
  · intro now st queue
    induction queue generalizing st with
    | nil => exact ⟨rfl, by intro j hj; exact absurd hj (List.not_mem_nil j)⟩
    | cons e rest ih =>
      obtain ⟨job, run, leakTicks⟩ := e
      rcases hpr : processJobRun st job run now with ⟨effs, res, leak⟩
      have hid : ∀ st1 effs1 job1,
          queueStep st job run leakTicks now = (st1, effs1, job1) →
          job1.id = job.id := by
        intro st1 effs1 job1 hq
        cases res with
        | ok u =>
          rw [queueStep, hpr] at hq
          simp only [Prod.mk.injEq] at hq
          rw [← hq.2.2]
        | error msg =>
          rw [queueStep, hpr] at hq
          simp only [Prod.mk.injEq] at hq
          rw [← hq.2.2]
      rcases hq : queueStep st job run leakTicks now with ⟨st1, effs1, job1⟩
      rcases hrec : processQueueRun now st1 rest with ⟨st2, jobs⟩
      have hih := ih st1
      rw [hrec] at hih
      have hcons : processQueueRun now st ((job, run, leakTicks) :: rest) =
          (st2, job1 :: jobs) := by
        rw [processQueueRun, hq]
        show (match processQueueRun now st1 rest with
          | (st2, jobs) => (st2, job1 :: jobs)) = (st2, job1 :: jobs)
        rw [hrec]
      constructor
      · rw [hcons, List.map_cons, List.map_cons, hih.1, hid st1 effs1 job1 hq]
      · intro j hj
        rw [hcons] at hj
        rcases List.mem_cons.mp hj with rfl | hjrest
        · have := hstep st job run leakTicks now
          rw [hq] at this
          exact this
        · exact hih.2 j hjrest
  · intro st sessionId directionId parentNodeId mediaType depth nodeId jobId now
      s d hs hfind
    refine ⟨(st.addNode sessionId directionId
        (newNode nodeId directionId parentNodeId mediaType depth now) now).2,
      { id := jobId, sessionId := sessionId, directionId := directionId,
        nodeId := nodeId, parentNodeId := parentNodeId, mediaType := mediaType,
        depth := depth, status := .queued, error := none }, ?_⟩
    simp only [enqueueGeneration, hs, hfind]

/-- C5 witness: a composition failure on the concrete `job1` marks the
job failed with the provider's issues, publishes the `error` event, and
the one-job queue still reports the job processed. -/
theorem c5_failure_handling_witness :
    ((queueStep store1n job1 failRun 0 epochDate).2.2) =
      { job1 with
          status := JobStatus.failed
          error := some "Prompt composition failed: bad" } ∧
    NodeEvent.errorEv (some "n1") "Prompt composition failed: bad" ∈
      emittedOf (queueStep store1n job1 failRun 0 epochDate).2.1 ∧
    ((processQueueRun epochDate store1n [(job1, failRun, 0)]).2).map
      GenerationJob.id = ["j1"] :=
  ⟨(c5_failure_handling.2.1 store1n job1 failRun 0 epochDate
      "Prompt composition failed: bad" rfl).1,
   (c5_failure_handling.2.1 store1n job1 failRun 0 epochDate
      "Prompt composition failed: bad" rfl).2.1,
   ((c5_failure_handling.2.2.1 epochDate store1n [(job1, failRun, 0)]).1).trans
     rfl⟩

/-! ## Progress-sequence lemmas -/

theorem chain_le_glue (v1 : List Rat) :
    ∀ (s m : Rat) (v2 : List Rat), List.Chain' (· ≤ ·) (s :: v1) →
      (∀ v ∈ v1, v ≤ m) → s ≤ m → List.Chain' (· ≤ ·) (m :: v2) →
      List.Chain' (· ≤ ·) (s :: (v1 ++ v2)) := by
  induction v1 with
  | nil =>
    intro s m v2 _ _ hsm h2
    cases v2 with
    | nil => exact List.chain'_singleton s
    | cons b v2' =>
      rw [List.nil_append]
      have hmb := (List.chain'_cons.mp h2).1
      exact List.chain'_cons.mpr ⟨le_trans hsm hmb, (List.chain'_cons.mp h2).2⟩
  | cons a v1' ih =>
    intro s m v2 h1 hb hsm h2
    rw [List.cons_append]
    have h1' := List.chain'_cons.mp h1
    exact List.chain'_cons.mpr ⟨h1'.1,
      ih a m v2 h1'.2 (fun v hv => hb v (List.mem_cons_of_mem a hv))
        (hb a (List.mem_cons_self a v1')) h2⟩

theorem foldl_progress_mem (ps : List NodePatch) :
    ∀ n0 : GenerationNode,
      (ps.foldl applyNodePatch n0).progress = n0.progress ∨
      (ps.foldl applyNodePatch n0).progress ∈ ps.filterMap NodePatch.progress := by
  induction ps with
  | nil => intro n0; exact Or.inl rfl
  | cons p ps ih =>
    intro n0
    rw [List.foldl_cons]
    rcases ih (applyNodePatch n0 p) with h | h
    · cases hp : p.progress with
      | none =>
        left
        rw [h]
        simp [applyNodePatch, hp]
      | some c =>
        right
        rw [List.mem_filterMap]
        refine ⟨p, List.mem_cons_self p ps, ?_⟩
        rw [hp, h]
        have hq : (applyNodePatch n0 p).progress = c := by
          simp [applyNodePatch, hp]
        rw [hq]
    · right
      rw [List.mem_filterMap] at h ⊢
      obtain ⟨q, hq, hqp⟩ := h
      exact ⟨q, List.mem_cons_of_mem p hq, hqp⟩

theorem tickerRun_asc (n d : String) (endP step : Rat) (hstep : 0 ≤ step) :
    ∀ k cur,
      List.Chain' (· ≤ ·)
        (cur :: progressWritesOf (tickerRun n d endP step k cur).2) ∧
      cur ≤ (tickerRun n d endP step k cur).1 ∧
      (∀ v ∈ progressWritesOf (tickerRun n d endP step k cur).2,
        v ≤ (tickerRun n d endP step k cur).1) ∧
      (tickerRun n d endP step k cur).1 ≤ max cur endP := by
  intro k
  induction k with
  | zero =>
    intro cur
    refine ⟨?_, le_refl cur, ?_, le_max_left cur endP⟩
    · simp [tickerRun, progressWritesOf, patchesOf]
    · intro v hv
      simp [tickerRun, progressWritesOf, patchesOf] at hv
  | succ k ih =>
    intro cur
    by_cases hc : cur < endP
    · have hcc : cur ≤ min (cur + step) endP :=
        le_min (by linarith) (le_of_lt hc)
      have hrec := ih (min (cur + step) endP)
      have heq : tickerRun n d endP step (k + 1) cur =
          (let c := min (cur + step) endP
           let r := tickerRun n d endP step k c
           (r.1, Effect.updNode { progress := some c } ::
             Effect.emitEv (.generation_progress n d c .generating
               "Generating...") :: r.2)) := by
        rw [tickerRun, if_pos hc]
      rw [heq]
      simp only [progressWritesOf, patchesOf, List.filterMap_cons] at hrec ⊢
      refine ⟨?_, ?_, ?_, ?_⟩
      · exact List.chain'_cons.mpr ⟨hcc, hrec.1⟩
      · exact le_trans hcc hrec.2.1
      · intro v hv
        rcases List.mem_cons.mp hv with rfl | hv'
        · exact hrec.2.1
        · exact hrec.2.2.1 v hv'
      · refine le_trans hrec.2.2.2 ?_
        rw [max_le_iff]
        constructor
        · exact le_trans (min_le_right _ _) (le_max_right cur endP)
        · exact le_max_right cur endP
    · have heq : tickerRun n d endP step (k + 1) cur =
          tickerRun n d endP step k cur := by
        rw [tickerRun, if_neg hc]
      rw [heq]
      exact ih cur

theorem progressWritesOf_append (a b : List Effect) :
    progressWritesOf (a ++ b) = progressWritesOf a ++ progressWritesOf b := by
  unfold progressWritesOf
  rw [patchesOf_append, List.filterMap_append]

theorem progressWritesOf_cons_emit (e : NodeEvent) (l : List Effect) :
    progressWritesOf (Effect.emitEv e :: l) = progressWritesOf l := by
  simp [progressWritesOf, patchesOf]

theorem imageRun_pw (sid nid did : String) (r : ImageRun) :
    progressWritesOf (generateImageRun sid nid did r).1 =
      progressWritesOf (tickerRun nid did 90 ((90 - 40) / 50) r.w1 40).2 ++
      progressWritesOf (tickerRun nid did 90 ((90 - 40) / 50) r.w2
        (tickerRun nid did 90 ((90 - 40) / 50) r.w1 40).1).2 := by
  rcases h1 : tickerRun nid did 90 ((90 - 40) / 50) r.w1 40 with ⟨c1, evs1⟩
  rcases h2 : tickerRun nid did 90 ((90 - 40) / 50) r.w2 c1 with ⟨c2, evs2⟩
  cases hres : r.result with
  | success =>
    simp [generateImageRun, h1, h2, hres, progressWritesOf_append,
      progressWritesOf_cons_emit, progressWritesOf, patchesOf]
  | apiFail msg =>
    simp [generateImageRun, h1, h2, hres, progressWritesOf_append,
      progressWritesOf_cons_emit, progressWritesOf, patchesOf]
  | postFail msg =>
    simp [generateImageRun, h1, h2, hres, progressWritesOf_append,
      progressWritesOf_cons_emit, progressWritesOf, patchesOf]

theorem imageRun_writes (sid nid did : String) (r : ImageRun) :
    List.Chain' (· ≤ ·)
      (40 :: progressWritesOf (generateImageRun sid nid did r).1) ∧
    ∀ v ∈ progressWritesOf (generateImageRun sid nid did r).1, v ≤ 90 := by
  have hstep : (0 : Rat) ≤ (90 - 40) / 50 := by norm_num
  have t1 := tickerRun_asc nid did 90 ((90 - 40) / 50) hstep r.w1 40
  have t2 := tickerRun_asc nid did 90 ((90 - 40) / 50) hstep r.w2
    (tickerRun nid did 90 ((90 - 40) / 50) r.w1 40).1
  have hmax : max (40 : Rat) 90 = 90 := by norm_num
  have hc1 : (tickerRun nid did 90 ((90 - 40) / 50) r.w1 40).1 ≤ 90 := by
    rw [hmax] at t1
    exact t1.2.2.2
  have hc2 : (tickerRun nid did 90 ((90 - 40) / 50) r.w2
      (tickerRun nid did 90 ((90 - 40) / 50) r.w1 40).1).1 ≤ 90 := by
    refine le_trans t2.2.2.2 ?_
    rw [max_le_iff]
    exact ⟨hc1, le_refl _⟩
  rw [imageRun_pw]
  constructor
  · exact chain_le_glue _ 40 _ _ t1.1 (fun v hv => t1.2.2.1 v hv) t1.2.1 t2.1
  · intro v hv
    rcases List.mem_append.mp hv with hv1 | hv2
    · exact le_trans (t1.2.2.1 v hv1) hc1
    · exact le_trans (t2.2.2.1 v hv2) hc2

theorem videoPollLoop_asc (nid did : String) (polls : Nat → PollStep) :
    ∀ fuel att cur,
      List.Chain' (· ≤ ·)
        (cur :: progressWritesOf (videoPollLoop nid did polls fuel att cur).2.1) ∧
      cur ≤ (videoPollLoop nid did polls fuel att cur).1 ∧
      (∀ v ∈ progressWritesOf (videoPollLoop nid did polls fuel att cur).2.1,
        v ≤ (videoPollLoop nid did polls fuel att cur).1) ∧
      (videoPollLoop nid did polls fuel att cur).1 ≤ max cur 90 := by
  intro fuel
  induction fuel with
  | zero =>
    intro att cur
    refine ⟨?_, le_refl cur, ?_, le_max_left cur 90⟩
    · simp [videoPollLoop, progressWritesOf, patchesOf]
    · intro v hv
      simp [videoPollLoop, progressWritesOf, patchesOf] at hv
  | succ fuel ih =>
    intro att cur
    have hone : (0 : Rat) ≤ 1 := by norm_num
    rcases h1 : tickerRun nid did 90 1 (polls att).sleepTicks cur with ⟨c1, evs1⟩
    rcases h2 : tickerRun nid did 90 1 (polls att).fetchTicks c1 with ⟨c2, evs2⟩
    have t1 := tickerRun_asc nid did 90 1 hone (polls att).sleepTicks cur
    have t2 := tickerRun_asc nid did 90 1 hone (polls att).fetchTicks c1
    rw [h1] at t1
    rw [h2] at t2
    have hc1le : c1 ≤ max cur 90 := t1.2.2.2
    have hmaxmax : max c1 90 ≤ max cur 90 := max_le hc1le (le_max_right cur 90)
    cases houtcome : (polls att).outcome with
    | done url =>
      have heq : videoPollLoop nid did polls (fuel + 1) att cur =
          (c2, evs1 ++ Effect.emitEv (.generation_progress nid did
            (50 + min 35 (((att + 1 : Nat) : Rat) * (1 / 2))) .generating
            "Rendering video...") :: evs2, some (.ok url)) := by
        simp only [videoPollLoop, h1, h2, houtcome]
      rw [heq]
      simp only [progressWritesOf_append, progressWritesOf_cons_emit]
      refine ⟨?_, le_trans t1.2.1 t2.2.1, ?_, ?_⟩
      · exact chain_le_glue _ cur _ _ t1.1 (fun v hv => t1.2.2.1 v hv) t1.2.1 t2.1
      · intro v hv
        rcases List.mem_append.mp hv with hv1 | hv2
        · exact le_trans (t1.2.2.1 v hv1) t2.2.1
        · exact t2.2.2.1 v hv2
      · exact le_trans t2.2.2.2 hmaxmax
    | failed msg =>
      have heq : videoPollLoop nid did polls (fuel + 1) att cur =
          (c2, evs1 ++ Effect.emitEv (.generation_progress nid did
            (50 + min 35 (((att + 1 : Nat) : Rat) * (1 / 2))) .generating
            "Rendering video...") :: evs2, some (.error msg)) := by
        simp only [videoPollLoop, h1, h2, houtcome]
      rw [heq]
      simp only [progressWritesOf_append, progressWritesOf_cons_emit]
      refine ⟨?_, le_trans t1.2.1 t2.2.1, ?_, ?_⟩
      · exact chain_le_glue _ cur _ _ t1.1 (fun v hv => t1.2.2.1 v hv) t1.2.1 t2.1
      · intro v hv
        rcases List.mem_append.mp hv with hv1 | hv2
        · exact le_trans (t1.2.2.1 v hv1) t2.2.1
        · exact t2.2.2.1 v hv2
      · exact le_trans t2.2.2.2 hmaxmax
    | retry =>
      rcases h3 : videoPollLoop nid did polls fuel (att + 1) c2 with ⟨cf, evs3, res⟩
      have hrec := ih (att + 1) c2
      rw [h3] at hrec
      have heq : videoPollLoop nid did polls (fuel + 1) att cur =
          (cf, (evs1 ++ Effect.emitEv (.generation_progress nid did
            (50 + min 35 (((att + 1 : Nat) : Rat) * (1 / 2))) .generating
            "Rendering video...") :: evs2) ++ evs3, res) := by
        simp only [videoPollLoop, h1, h2, houtcome, h3]
      rw [heq]
      simp only [progressWritesOf_append, progressWritesOf_cons_emit]
      have hb12 : ∀ v ∈ progressWritesOf evs1 ++ progressWritesOf evs2, v ≤ c2 := by
        intro v hv
        rcases List.mem_append.mp hv with hv1 | hv2
        · exact le_trans (t1.2.2.1 v hv1) t2.2.1
        · exact t2.2.2.1 v hv2
      have hchain12 : List.Chain' (· ≤ ·)
          (cur :: (progressWritesOf evs1 ++ progressWritesOf evs2)) :=
        chain_le_glue _ cur _ _ t1.1 (fun v hv => t1.2.2.1 v hv) t1.2.1 t2.1
      refine ⟨?_, le_trans t1.2.1 (le_trans t2.2.1 hrec.2.1), ?_, ?_⟩
      · exact chain_le_glue _ cur _ _ hchain12 hb12
          (le_trans t1.2.1 t2.2.1) hrec.1
      · intro v hv
        rcases List.mem_append.mp hv with hv12 | hv3
        · exact le_trans (hb12 v hv12) hrec.2.1
        · exact hrec.2.2.1 v hv3
      · refine le_trans hrec.2.2.2 ?_
        rw [max_le_iff]
        exact ⟨le_trans t2.2.2.2 hmaxmax, le_max_right cur 90⟩

theorem videoRun_writes (sid nid did : String) (r : VideoRun) :
    List.Chain' (· ≤ ·)
      (40 :: progressWritesOf (generateVideoRun sid nid did r).1) ∧
    ∀ v ∈ progressWritesOf (generateVideoRun sid nid did r).1, v ≤ 90 := by
  by_cases hk : r.apiKeyPresent = false
  · have heq : (generateVideoRun sid nid did r).1 = [] := by
      simp only [generateVideoRun, if_pos hk]
    rw [heq]
    refine ⟨List.chain'_singleton 40, ?_⟩
    intro v hv
    simp [progressWritesOf, patchesOf] at hv
  · rcases h1 : tickerRun nid did 90 1 r.w1 40 with ⟨c1, evs1⟩
    rcases h2 : tickerRun nid did 90 1 r.w2 c1 with ⟨c2, evs2⟩
    have t1 := tickerRun_asc nid did 90 1 (by norm_num) r.w1 40
    have t2 := tickerRun_asc nid did 90 1 (by norm_num) r.w2 c1
    rw [h1] at t1
    rw [h2] at t2
    have hmax : max (40 : Rat) 90 = 90 := by norm_num
    have hc1 : c1 ≤ 90 := by
      have := t1.2.2.2
      rw [hmax] at this
      exact this
    have hc2 : c2 ≤ 90 := le_trans t2.2.2.2 (max_le hc1 (le_refl _))
    have hb12 : ∀ v ∈ progressWritesOf evs1 ++ progressWritesOf evs2, v ≤ c2 := by
      intro v hv
      rcases List.mem_append.mp hv with hv1 | hv2
      · exact le_trans (t1.2.2.1 v hv1) t2.2.1
      · exact t2.2.2.1 v hv2
    have hchain12 : List.Chain' (· ≤ ·)
        (40 :: (progressWritesOf evs1 ++ progressWritesOf evs2)) :=
      chain_le_glue _ 40 _ _ t1.1 (fun v hv => t1.2.2.1 v hv) t1.2.1 t2.1
    have hb12' : ∀ v ∈ progressWritesOf evs1 ++ progressWritesOf evs2, v ≤ 90 :=
      fun v hv => le_trans (hb12 v hv) hc2
    cases hcr : r.createOk with
    | some msg =>
      have heq : (generateVideoRun sid nid did r).1 =
          evs1 ++ Effect.emitEv (.generation_progress nid did 45 .generating
            "Initiating video generation...") :: evs2 := by
        simp only [generateVideoRun, if_neg hk, h1, h2, hcr]
      rw [heq, progressWritesOf_append, progressWritesOf_cons_emit]
      exact ⟨hchain12, hb12'⟩
    | none =>
      rcases h3 : videoPollLoop nid did r.polls 120 0 c2 with ⟨cf, evs3, res⟩
      have p3 := videoPollLoop_asc nid did r.polls 120 0 c2
      rw [h3] at p3
      have hcf : cf ≤ 90 := le_trans p3.2.2.2 (max_le hc2 (le_refl _))
      have hchain123 : List.Chain' (· ≤ ·) (40 ::
          ((progressWritesOf evs1 ++ progressWritesOf evs2) ++
            progressWritesOf evs3)) :=
        chain_le_glue _ 40 _ _ hchain12 hb12 (le_trans t1.2.1 t2.2.1) p3.1
      have hb123 : ∀ v ∈ (progressWritesOf evs1 ++ progressWritesOf evs2) ++
          progressWritesOf evs3, v ≤ 90 := by
        intro v hv
        rcases List.mem_append.mp hv with hv12 | hv3
        · exact hb12' v hv12
        · exact le_trans (p3.2.2.1 v hv3) hcf
      cases res with
      | none =>
        have heq : (generateVideoRun sid nid did r).1 =
            (evs1 ++ Effect.emitEv (.generation_progress nid did 45 .generating
              "Initiating video generation...") :: evs2) ++
            Effect.emitEv (.generation_progress nid did 50 .generating
              "Video rendering in progress...") :: evs3 := by
          simp only [generateVideoRun, if_neg hk, h1, h2, hcr, h3]
        rw [heq, progressWritesOf_append, progressWritesOf_append,
          progressWritesOf_cons_emit, progressWritesOf_cons_emit]
        exact ⟨hchain123, hb123⟩
      | some res' =>
        cases res' with
        | error msg =>
          have heq : (generateVideoRun sid nid did r).1 =
              (evs1 ++ Effect.emitEv (.generation_progress nid did 45 .generating
                "Initiating video generation...") :: evs2) ++
              Effect.emitEv (.generation_progress nid did 50 .generating
                "Video rendering in progress...") :: evs3 := by
            simp only [generateVideoRun, if_neg hk, h1, h2, hcr, h3]
          rw [heq, progressWritesOf_append, progressWritesOf_append,
            progressWritesOf_cons_emit, progressWritesOf_cons_emit]
          exact ⟨hchain123, hb123⟩
        | ok url =>
          have heq : (generateVideoRun sid nid did r).1 =
              ((evs1 ++ Effect.emitEv (.generation_progress nid did 45 .generating
                "Initiating video generation...") :: evs2) ++
              Effect.emitEv (.generation_progress nid did 50 .generating
                "Video rendering in progress...") :: evs3) ++
              [Effect.emitEv (.generation_progress nid did 88 .saving
                "Downloading video...")] := by
            cases hd : r.downloadOk with
            | true => simp only [generateVideoRun, if_neg hk, h1, h2, hcr, h3, hd,
                if_pos]
            | false => simp only [generateVideoRun, if_neg hk, h1, h2, hcr, h3, hd,
                Bool.false_eq_true, if_false]
          rw [heq, progressWritesOf_append, progressWritesOf_append,
            progressWritesOf_append, progressWritesOf_cons_emit,
            progressWritesOf_cons_emit, progressWritesOf_cons_emit]
          constructor
          · rw [show progressWritesOf ([] : List Effect) = [] from rfl,
              List.append_nil]
            exact hchain123
          · intro v hv
            rw [show progressWritesOf ([] : List Effect) = [] from rfl,
              List.append_nil] at hv
            exact hb123 v hv

theorem videoRun_leak (sid nid did : String) (r : VideoRun) (cur : Rat) :
    (generateVideoRun sid nid did r).2.2 = some cur →
    cur = 40 ∧ (generateVideoRun sid nid did r).1 = [] ∧
    (generateVideoRun sid nid did r).2.1 =
      .error "OPENAI_API_KEY is not configured" := by
  by_cases hk : r.apiKeyPresent = false
  · intro h
    have heq : generateVideoRun sid nid did r =
        ([], .error "OPENAI_API_KEY is not configured", some 40) := by
      simp only [generateVideoRun, if_pos hk]
    rw [heq] at h ⊢
    simp only at h
    exact ⟨(Option.some.inj h).symm, rfl, rfl⟩
  · intro h
    exfalso
    rcases h1 : tickerRun nid did 90 1 r.w1 40 with ⟨c1, evs1⟩
    rcases h2 : tickerRun nid did 90 1 r.w2 c1 with ⟨c2, evs2⟩
    cases hcr : r.createOk with
    | some msg =>
      simp only [generateVideoRun, if_neg hk, h1, h2, hcr] at h
      exact Option.noConfusion h
    | none =>
      rcases h3 : videoPollLoop nid did r.polls 120 0 c2 with ⟨cf, evs3, res⟩
      cases res with
      | none =>
        simp only [generateVideoRun, if_neg hk, h1, h2, hcr, h3] at h
        exact Option.noConfusion h
      | some res' =>
        cases res' with
        | error msg =>
          simp only [generateVideoRun, if_neg hk, h1, h2, hcr, h3] at h
          exact Option.noConfusion h
        | ok url =>
          cases hd : r.downloadOk with
          | true =>
            simp only [generateVideoRun, if_neg hk, h1, h2, hcr, h3, hd,
              if_pos] at h
            exact Option.noConfusion h
          | false =>
            simp only [generateVideoRun, if_neg hk, h1, h2, hcr, h3, hd,
              Bool.false_eq_true, if_false] at h
            exact Option.noConfusion h

theorem pw_startEffects (n d : String) :
    progressWritesOf (startEffects n d) = [5] := rfl

theorem pw_attachEffects (n d : String) (g : GatedPackage) :
    progressWritesOf (attachEffects n d g) = [40] := rfl

theorem pw_finishEffects (n d u : String) (g : GatedPackage) (t : Date) :
    progressWritesOf (finishEffects n d u g t) = [100] := rfl

theorem chain_prefix_054 (rest : List Rat)
    (h : List.Chain' (· ≤ ·) (40 :: rest)) :
    List.Chain' (· ≤ ·) ((0 : Rat) :: 5 :: 40 :: rest) :=
  List.chain'_cons.mpr ⟨by norm_num, List.chain'_cons.mpr ⟨by norm_num, h⟩⟩

/-- Write sequence and terminal node state of a full `processJob` run:
the stored progress writes rise from 0; on failure they stay ≤ 90; on
success the node folds to progress 100 and status complete; a leaked
ticker implies the video early-throw shape (writes so far `[5, 40]`,
leak from 40). -/
theorem processJobRun_writes (st : Store) (job : GenerationJob) (run : JobRun)
    (now : Date) :
    List.Chain' (· ≤ ·)
      ((0 : Rat) :: progressWritesOf (processJobRun st job run now).1) ∧
    (∀ msg, (processJobRun st job run now).2.1 = Except.error msg →
      ∀ v ∈ progressWritesOf (processJobRun st job run now).1, v ≤ 90) ∧
    (∀ u, (processJobRun st job run now).2.1 = Except.ok u →
      ∀ n0, (nodeAfter (processJobRun st job run now).1 n0).progress = 100 ∧
        (nodeAfter (processJobRun st job run now).1 n0).status = .complete) ∧
    (∀ cur, (processJobRun st job run now).2.2 = some cur →
      cur = 40 ∧
      progressWritesOf (processJobRun st job run now).1 = [5, 40]) := by
  cases hs : st.getSession job.sessionId with
  | none =>
    have heq : processJobRun st job run now =
        ([], .error "Session not found", none) := by
      simp only [processJobRun, hs]
    rw [heq]
    refine ⟨?_, ?_, ?_, ?_⟩
    · exact List.chain'_singleton 0
    · intro msg _ v hv
      exact absurd hv (by simp [progressWritesOf, patchesOf])
    · intro u hu
      exact absurd hu (by simp)
    · intro cur hcur
      exact absurd hcur (by simp)
  | some session =>
  cases hf : session.directions.find? (fun d => d.id == job.directionId) with
  | none =>
    have heq : processJobRun st job run now =
        ([], .error "Direction not found", none) := by
      simp only [processJobRun, hs, hf]
    rw [heq]
    refine ⟨?_, ?_, ?_, ?_⟩
    · exact List.chain'_singleton 0
    · intro msg _ v hv
      exact absurd hv (by simp [progressWritesOf, patchesOf])
    · intro u hu
      exact absurd hu (by simp)
    · intro cur hcur
      exact absurd hcur (by simp)
  | some dd =>
  cases hrev : run.composeResult.needsRevision with
  | true =>
    have heq : processJobRun st job run now =
        (startEffects job.nodeId job.directionId,
          .error ("Prompt composition failed: " ++
            String.intercalate "; " run.composeResult.issues), none) := by
      simp only [processJobRun, hs, hf, hrev, if_pos]
    rw [heq]
    refine ⟨?_, ?_, ?_, ?_⟩
    · rw [pw_startEffects]
      exact List.chain'_cons.mpr ⟨by norm_num, List.chain'_singleton 5⟩
    · intro msg _ v hv
      rw [pw_startEffects] at hv
      rw [List.mem_singleton.mp hv]
      norm_num
    · intro u hu
      exact absurd hu (by simp)
    · intro cur hcur
      exact absurd hcur (by simp)
  | false =>
  cases happ : run.gateResult.approved with
  | false =>
    have heq : processJobRun st job run now =
        (startEffects job.nodeId job.directionId ++
            [gateEffect job.nodeId job.directionId],
          .error ("Prompt rejected: " ++
            String.intercalate "; " run.gateResult.gateIssues), none) := by
      simp only [processJobRun, hs, hf, hrev, happ, Bool.false_eq_true,
        if_false, if_pos]
    rw [heq]
    have hpw : progressWritesOf (startEffects job.nodeId job.directionId ++
        [gateEffect job.nodeId job.directionId]) = [5] := rfl
    refine ⟨?_, ?_, ?_, ?_⟩
    · rw [hpw]
      exact List.chain'_cons.mpr ⟨by norm_num, List.chain'_singleton 5⟩
    · intro msg _ v hv
      rw [hpw] at hv
      rw [List.mem_singleton.mp hv]
      norm_num
    · intro u hu
      exact absurd hu (by simp)
    · intro cur hcur
      exact absurd hcur (by simp)
  | true =>
  cases hmt : job.mediaType with
  | image =>
    rcases hgi : generateImageRun job.sessionId job.nodeId job.directionId
      run.imageRun with ⟨effsI, resI⟩
    have hWI := imageRun_writes job.sessionId job.nodeId job.directionId
      run.imageRun
    rw [hgi] at hWI
    cases resI with
    | error msg =>
      have heq : processJobRun st job run now =
          (startEffects job.nodeId job.directionId ++
              gateEffect job.nodeId job.directionId ::
              attachEffects job.nodeId job.directionId run.gateResult ++ effsI,
            .error msg, none) := by
        simp only [processJobRun, hs, hf, hrev, happ, hmt, hgi,
          Bool.false_eq_true, if_false]
        rw [if_neg (by simp)]
      rw [heq]
      have hpw : progressWritesOf (startEffects job.nodeId job.directionId ++
          gateEffect job.nodeId job.directionId ::
          attachEffects job.nodeId job.directionId run.gateResult ++ effsI) =
          5 :: 40 :: progressWritesOf effsI := by
        rw [progressWritesOf_append, progressWritesOf_append]
        rfl
      refine ⟨?_, ?_, ?_, ?_⟩
      · rw [hpw]
        exact chain_prefix_054 _ hWI.1
      · intro m _ v hv
        rw [hpw] at hv
        rcases List.mem_cons.mp hv with rfl | hv'
        · norm_num
        · rcases List.mem_cons.mp hv' with rfl | hv''
          · norm_num
          · exact hWI.2 v hv''
      · intro u hu
        exact absurd hu (by simp)
      · intro cur hcur
        exact absurd hcur (by simp)
    | ok u =>
      have heq : processJobRun st job run now =
          (startEffects job.nodeId job.directionId ++
              gateEffect job.nodeId job.directionId ::
              attachEffects job.nodeId job.directionId run.gateResult ++ effsI ++
              finishEffects job.nodeId job.directionId u run.gateResult now,
            .ok u, none) := by
        simp only [processJobRun, hs, hf, hrev, happ, hmt, hgi,
          Bool.false_eq_true, if_false]
        rw [if_neg (by simp)]
      rw [heq]
      have hpw : progressWritesOf (startEffects job.nodeId job.directionId ++
          gateEffect job.nodeId job.directionId ::
          attachEffects job.nodeId job.directionId run.gateResult ++ effsI ++
          finishEffects job.nodeId job.directionId u run.gateResult now) =
          5 :: 40 :: (progressWritesOf effsI ++ [100]) := by
        rw [progressWritesOf_append, progressWritesOf_append,
          progressWritesOf_append, pw_finishEffects]
        rfl
      refine ⟨?_, ?_, ?_, ?_⟩
      · rw [hpw]
        refine chain_prefix_054 _ ?_
        refine chain_le_glue _ 40 90 _ hWI.1 hWI.2 (by norm_num) ?_
        exact List.chain'_cons.mpr ⟨by norm_num, List.chain'_singleton 100⟩
      · intro m hm
        exact absurd hm (by simp)
      · intro u' _ n0
        rw [nodeAfter, patchesOf_append, List.foldl_append]
        constructor
        · simp [finishEffects, patchesOf, applyNodePatch, completePatch]
        · simp [finishEffects, patchesOf, applyNodePatch, completePatch]
      · intro cur hcur
        exact absurd hcur (by simp)
  | video =>
    rcases hgv : generateVideoRun job.sessionId job.nodeId job.directionId
      run.videoRun with ⟨effsV, resV, leakV⟩
    have hWV := videoRun_writes job.sessionId job.nodeId job.directionId
      run.videoRun
    rw [hgv] at hWV
    cases resV with
    | error msg =>
      have heq : processJobRun st job run now =
          (startEffects job.nodeId job.directionId ++
              gateEffect job.nodeId job.directionId ::
              attachEffects job.nodeId job.directionId run.gateResult ++ effsV,
            .error msg, leakV) := by
        simp only [processJobRun, hs, hf, hrev, happ, hmt, hgv,
          Bool.false_eq_true, if_false]
        rw [if_neg (by simp)]
      rw [heq]
      have hpw : progressWritesOf (startEffects job.nodeId job.directionId ++
          gateEffect job.nodeId job.directionId ::
          attachEffects job.nodeId job.directionId run.gateResult ++ effsV) =
          5 :: 40 :: progressWritesOf effsV := by
        rw [progressWritesOf_append, progressWritesOf_append]
        rfl
      refine ⟨?_, ?_, ?_, ?_⟩
      · rw [hpw]
        exact chain_prefix_054 _ hWV.1
      · intro m _ v hv
        rw [hpw] at hv
        rcases List.mem_cons.mp hv with rfl | hv'
        · norm_num
        · rcases List.mem_cons.mp hv' with rfl | hv''
          · norm_num
          · exact hWV.2 v hv''
      · intro u hu
        exact absurd hu (by simp)
      · intro cur hcur
        simp only at hcur
        have h22 : (generateVideoRun job.sessionId job.nodeId job.directionId
            run.videoRun).2.2 = some cur := by
          rw [hgv]
          exact hcur
        have hlk := videoRun_leak job.sessionId job.nodeId job.directionId
          run.videoRun cur h22
        have heffs : effsV = [] := by
          have h1 := hlk.2.1
          rw [hgv] at h1
          exact h1
        refine ⟨hlk.1, ?_⟩
        rw [hpw, heffs]
        rfl
    | ok u =>
      have heq : processJobRun st job run now =
          (startEffects job.nodeId job.directionId ++
              gateEffect job.nodeId job.directionId ::
              attachEffects job.nodeId job.directionId run.gateResult ++ effsV ++
              finishEffects job.nodeId job.directionId u run.gateResult now,
            .ok u, leakV) := by
        simp only [processJobRun, hs, hf, hrev, happ, hmt, hgv,
          Bool.false_eq_true, if_false]
        rw [if_neg (by simp)]
      rw [heq]
      have hpw : progressWritesOf (startEffects job.nodeId job.directionId ++
          gateEffect job.nodeId job.directionId ::
          attachEffects job.nodeId job.directionId run.gateResult ++ effsV ++
          finishEffects job.nodeId job.directionId u run.gateResult now) =
          5 :: 40 :: (progressWritesOf effsV ++ [100]) := by
        rw [progressWritesOf_append, progressWritesOf_append,
          progressWritesOf_append, pw_finishEffects]
        rfl
      refine ⟨?_, ?_, ?_, ?_⟩
      · rw [hpw]
        refine chain_prefix_054 _ ?_
        refine chain_le_glue _ 40 90 _ hWV.1 hWV.2 (by norm_num) ?_
        exact List.chain'_cons.mpr ⟨by norm_num, List.chain'_singleton 100⟩
      · intro m hm
        exact absurd hm (by simp)
      · intro u' _ n0
        rw [nodeAfter, patchesOf_append, List.foldl_append]
        constructor
        · simp [finishEffects, patchesOf, applyNodePatch, completePatch]
        · simp [finishEffects, patchesOf, applyNodePatch, completePatch]
      · intro cur hcur
        simp only at hcur
        have h22 : (generateVideoRun job.sessionId job.nodeId job.directionId
            run.videoRun).2.2 = some cur := by
          rw [hgv]
          exact hcur
        have hlk := videoRun_leak job.sessionId job.nodeId job.directionId
          run.videoRun cur h22
        have h21 := hlk.2.2
        rw [hgv] at h21
        exact absurd h21 (by simp)

/-! ## C4: stored progress is monotone; 100 iff complete -/

/-- C4: over one job's lifetime (including the simulated ticker's writes,
and any writes of a leaked ticker after a failure), the sequence of
values stored in the node's `progress` field never decreases from its
initial 0; and the node ends with progress exactly 100 if and only if
its status is `complete`. -/
theorem c4_progress_monotone (st : Store) (job : GenerationJob) (run : JobRun)
    (leakTicks : Nat) (now : Date) :
    List.Chain' (· ≤ ·)
      ((0 : Rat) :: progressWritesOf (queueStep st job run leakTicks now).2.1) ∧
    (∀ n0 : GenerationNode, n0.progress = 0 →
      ((nodeAfter (queueStep st job run leakTicks now).2.1 n0).progress = 100 ↔
       (nodeAfter (queueStep st job run leakTicks now).2.1 n0).status =
         NodeStatus.complete)) := by
  rcases hpr : processJobRun st job run now with ⟨effs, res, leak⟩
  have hW := processJobRun_writes st job run now
  rw [hpr] at hW
  cases res with
  | ok u =>
    have heq : (queueStep st job run leakTicks now).2.1 = effs := by
      simp only [queueStep, hpr]
    rw [heq]
    refine ⟨hW.1, ?_⟩
    intro n0 _
    have hdone := hW.2.2.1 u rfl n0
    rw [hdone.1, hdone.2]
    simp
  | error msg =>
    have heq : (queueStep st job run leakTicks now).2.1 =
        effs ++ failEffects job.nodeId msg ++
        leakEffects job.nodeId job.directionId leak leakTicks := by
      simp only [queueStep, hpr]
    rw [heq]
    have hpwfail : progressWritesOf (failEffects job.nodeId msg) = [] := rfl
    have hbound := hW.2.1 msg rfl
    have hle90 : ∀ v ∈ progressWritesOf (effs ++ failEffects job.nodeId msg ++
        leakEffects job.nodeId job.directionId leak leakTicks), v ≤ 90 := by
      intro v hv
      rw [progressWritesOf_append, progressWritesOf_append, hpwfail,
        List.append_nil] at hv
      rcases List.mem_append.mp hv with hv1 | hv2
      · exact hbound v hv1
      · cases hleak : leak with
        | none =>
          rw [hleak] at hv2
          exact absurd hv2 (by simp [leakEffects, progressWritesOf, patchesOf])
        | some cur =>
          rw [hleak] at hv2
          simp only [leakEffects] at hv2
          have hcur := hW.2.2.2 cur (by rw [hleak])
          have t := tickerRun_asc job.nodeId job.directionId 90 1 (by norm_num)
            leakTicks cur
          have hcf : (tickerRun job.nodeId job.directionId 90 1 leakTicks
              cur).1 ≤ 90 := by
            refine le_trans t.2.2.2 ?_
            rw [hcur.1]
            norm_num
          exact le_trans (t.2.2.1 v hv2) hcf
    constructor
    · rw [progressWritesOf_append, progressWritesOf_append, hpwfail,
        List.append_nil]
      cases hleak : leak with
      | none =>
        simp only [leakEffects, progressWritesOf, patchesOf,
          List.filterMap_nil, List.append_nil]
        exact hW.1
      | some cur =>
        have hcur := hW.2.2.2 cur (by rw [hleak])
        rw [hcur.2]
        simp only [leakEffects]
        have hc40 := hcur.1
        subst hc40
        have t := tickerRun_asc job.nodeId job.directionId 90 1 (by norm_num)
          leakTicks 40
        simp only [List.cons_append, List.nil_append]
        exact chain_prefix_054 _ t.1
    · intro n0 hp0
      have hstat : (nodeAfter (effs ++ failEffects job.nodeId msg ++
          leakEffects job.nodeId job.directionId leak leakTicks) n0).status =
          NodeStatus.error := by
        rw [nodeAfter, patchesOf_append, List.foldl_append]
        have hmidstat : ∀ a : GenerationNode,
            ((patchesOf (effs ++ failEffects job.nodeId msg)).foldl
              applyNodePatch a).status = NodeStatus.error := by
          intro a
          rw [patchesOf_append, List.foldl_append]
          simp [failEffects, failPatch, patchesOf, applyNodePatch]
        cases hleak : leak with
        | none =>
          simp only [leakEffects, patchesOf, List.filterMap_nil,
            List.foldl_nil]
          exact hmidstat n0
        | some cur =>
          simp only [leakEffects]
          have hpres := foldl_patches_preserve
            (patchesOf (tickerRun job.nodeId job.directionId 90 1 leakTicks
              cur).2)
            (tickerRun_patches _ _ _ _ leakTicks cur)
          exact ((hpres _).1).trans (hmidstat n0)
      rw [hstat]
      have hprog : (nodeAfter (effs ++ failEffects job.nodeId msg ++
          leakEffects job.nodeId job.directionId leak leakTicks) n0).progress ≤
          90 := by
        rcases foldl_progress_mem (patchesOf (effs ++ failEffects job.nodeId
            msg ++ leakEffects job.nodeId job.directionId leak leakTicks)) n0
          with hm | hm
        · rw [nodeAfter, hm, hp0]
          norm_num
        · rw [nodeAfter]
          exact hle90 _ hm
      constructor
      · intro h100
        rw [h100] at hprog
        norm_num at hprog
      · intro hc
        exact absurd hc (by simp)

/-- C4 witness: the concrete successful image job with one mid-call tick
has a non-decreasing stored-progress sequence, and its node ends at
progress 100 iff complete. -/
theorem c4_progress_monotone_witness :
    List.Chain' (· ≤ ·) ((0 : Rat) ::
      progressWritesOf (queueStep store1n job1 sampleRun 0 epochDate).2.1) ∧
    ((nodeAfter (queueStep store1n job1 sampleRun 0 epochDate).2.1
        (newNode "n1" "d1" none .image 1 epochDate)).progress = 100 ↔
     (nodeAfter (queueStep store1n job1 sampleRun 0 epochDate).2.1
        (newNode "n1" "d1" none .image 1 epochDate)).status =
       NodeStatus.complete) :=
  ⟨(c4_progress_monotone store1n job1 sampleRun 0 epochDate).1,
   (c4_progress_monotone store1n job1 sampleRun 0 epochDate).2
     (newNode "n1" "d1" none .image 1 epochDate) rfl⟩

/-! ## Event-kind lemmas -/

theorem emittedOf_cons_upd (p : NodePatch) (l : List Effect) :
    emittedOf (Effect.updNode p :: l) = emittedOf l := rfl

theorem emittedOf_cons_emit (ev : NodeEvent) (l : List Effect) :
    emittedOf (Effect.emitEv ev :: l) = ev :: emittedOf l := rfl

theorem allProgress_append (a b : List Effect) :
    allProgress (a ++ b) = (allProgress a && allProgress b) := by
  induction a with
  | nil => simp [allProgress]
  | cons e l ih =>
    cases e with
    | updNode p => simpa [allProgress] using ih
    | emitEv ev => simp [allProgress, ih, Bool.and_assoc]

theorem allProgress_emitted (l : List Effect) (h : allProgress l = true) :
    ∀ e ∈ emittedOf l, isProgressEvent e = true := by
  induction l with
  | nil => intro e he; exact absurd he (by simp [emittedOf])
  | cons eff l ih =>
    intro e he
    cases eff with
    | updNode p =>
      rw [emittedOf_cons_upd] at he
      exact ih (by simpa [allProgress] using h) e he
    | emitEv ev =>
      rw [show allProgress (Effect.emitEv ev :: l) =
        (isProgressEvent ev && allProgress l) from rfl,
        Bool.and_eq_true] at h
      rw [emittedOf_cons_emit] at he
      rcases List.mem_cons.mp he with rfl | he'
      · exact h.1
      · exact ih h.2 e he'

theorem tickerRun_allProgress (n d : String) (endP step : Rat) :
    ∀ k cur, allProgress (tickerRun n d endP step k cur).2 = true := by
  intro k
  induction k with
  | zero => intro cur; rfl
  | succ k ih =>
    intro cur
    by_cases hc : cur < endP
    · rcases hrec : tickerRun n d endP step k (min (cur + step) endP) with
        ⟨cf, evs⟩
      have h2 := ih (min (cur + step) endP)
      rw [hrec] at h2
      simp only [tickerRun, if_pos hc, hrec]
      simp only [allProgress, isProgressEvent, Bool.true_and]
      exact h2
    · simp only [tickerRun, if_neg hc]
      exact ih cur

theorem imageRun_allProgress (sid nid did : String) (r : ImageRun) :
    allProgress (generateImageRun sid nid did r).1 = true := by
  rcases h1 : tickerRun nid did 90 ((90 - 40) / 50) r.w1 40 with ⟨c1, evs1⟩
  rcases h2 : tickerRun nid did 90 ((90 - 40) / 50) r.w2 c1 with ⟨c2, evs2⟩
  have t1 := tickerRun_allProgress nid did 90 ((90 - 40) / 50) r.w1 40
  have t2 := tickerRun_allProgress nid did 90 ((90 - 40) / 50) r.w2 c1
  rw [h1] at t1
  rw [h2] at t2
  cases hres : r.result with
  | apiFail msg =>
    simp only [generateImageRun, h1, h2, hres]
    simp only [allProgress_append, allProgress, isProgressEvent,
      Bool.true_and, Bool.and_eq_true]
    exact ⟨t1, t2⟩
  | postFail msg =>
    simp only [generateImageRun, h1, h2, hres]
    simp only [allProgress_append, allProgress, isProgressEvent,
      Bool.true_and, Bool.and_true, Bool.and_eq_true]
    exact ⟨t1, t2⟩
  | success =>
    simp only [generateImageRun, h1, h2, hres]
    simp only [allProgress_append, allProgress, isProgressEvent,
      Bool.true_and, Bool.and_true, Bool.and_eq_true]
    exact ⟨t1, t2⟩

theorem pollLoop_allProgress (nid did : String) (polls : Nat → PollStep) :
    ∀ fuel att cur,
      allProgress (videoPollLoop nid did polls fuel att cur).2.1 = true := by
  intro fuel
  induction fuel with
  | zero => intro att cur; rfl
  | succ fuel ih =>
    intro att cur
    rcases h1 : tickerRun nid did 90 1 (polls att).sleepTicks cur with ⟨c1, evs1⟩
    rcases h2 : tickerRun nid did 90 1 (polls att).fetchTicks c1 with ⟨c2, evs2⟩
    have t1 := tickerRun_allProgress nid did 90 1 (polls att).sleepTicks cur
    have t2 := tickerRun_allProgress nid did 90 1 (polls att).fetchTicks c1
    rw [h1] at t1
    rw [h2] at t2
    cases houtcome : (polls att).outcome with
    | done url =>
      simp only [videoPollLoop, h1, h2, houtcome]
      simp only [allProgress_append, allProgress, isProgressEvent,
        Bool.true_and, Bool.and_eq_true]
      exact ⟨t1, t2⟩
    | failed msg =>
      simp only [videoPollLoop, h1, h2, houtcome]
      simp only [allProgress_append, allProgress, isProgressEvent,
        Bool.true_and, Bool.and_eq_true]
      exact ⟨t1, t2⟩
    | retry =>
      rcases h3 : videoPollLoop nid did polls fuel (att + 1) c2 with
        ⟨cf, evs3, res⟩
      have hrec := ih (att + 1) c2
      rw [h3] at hrec
      simp only [videoPollLoop, h1, h2, houtcome, h3]
      simp only [allProgress_append, allProgress, isProgressEvent,
        Bool.true_and, Bool.and_eq_true]
      exact ⟨⟨t1, t2⟩, hrec⟩

theorem videoRun_allProgress (sid nid did : String) (r : VideoRun) :
    allProgress (generateVideoRun sid nid did r).1 = true := by
  by_cases hk : r.apiKeyPresent = false
  · simp only [generateVideoRun, if_pos hk]
    rfl
  · rcases h1 : tickerRun nid did 90 1 r.w1 40 with ⟨c1, evs1⟩
    rcases h2 : tickerRun nid did 90 1 r.w2 c1 with ⟨c2, evs2⟩
    have t1 := tickerRun_allProgress nid did 90 1 r.w1 40
    have t2 := tickerRun_allProgress nid did 90 1 r.w2 c1
    rw [h1] at t1
    rw [h2] at t2
    cases hcr : r.createOk with
    | some msg =>
      simp only [generateVideoRun, if_neg hk, h1, h2, hcr]
      simp only [allProgress_append, allProgress, isProgressEvent,
        Bool.true_and, Bool.and_eq_true]
      exact ⟨t1, t2⟩
    | none =>
      rcases h3 : videoPollLoop nid did r.polls 120 0 c2 with ⟨cf, evs3, res⟩
      have p3 := pollLoop_allProgress nid did r.polls 120 0 c2
      rw [h3] at p3
      cases res with
      | none =>
        simp only [generateVideoRun, if_neg hk, h1, h2, hcr, h3]
        simp only [allProgress_append, allProgress, isProgressEvent,
          Bool.true_and, Bool.and_eq_true]
        exact ⟨⟨t1, t2⟩, p3⟩
      | some res' =>
        cases res' with
        | error msg =>
          simp only [generateVideoRun, if_neg hk, h1, h2, hcr, h3]
          simp only [allProgress_append, allProgress, isProgressEvent,
            Bool.true_and, Bool.and_eq_true]
          exact ⟨⟨t1, t2⟩, p3⟩
        | ok url =>
          cases hd : r.downloadOk with
          | true =>
            simp only [generateVideoRun, if_neg hk, h1, h2, hcr, h3, hd,
              if_pos]
            simp only [allProgress_append, allProgress, isProgressEvent,
              Bool.true_and, Bool.and_true, Bool.and_eq_true]
            exact ⟨⟨t1, t2⟩, p3⟩
          | false =>
            simp only [generateVideoRun, if_neg hk, h1, h2, hcr, h3, hd,
              Bool.false_eq_true, if_false]
            simp only [allProgress_append, allProgress, isProgressEvent,
              Bool.true_and, Bool.and_true, Bool.and_eq_true]
            exact ⟨⟨t1, t2⟩, p3⟩

theorem videoRun_noleak (sid nid did : String) (r : VideoRun)
    (hk : r.apiKeyPresent = true) :
    (generateVideoRun sid nid did r).2.2 = none := by
  cases hleak : (generateVideoRun sid nid did r).2.2 with
  | none => rfl
  | some cur =>
    exfalso
    have hlk := videoRun_leak sid nid did r cur hleak
    have : (generateVideoRun sid nid did r).2.1 =
        Except.error "OPENAI_API_KEY is not configured" := hlk.2.2
    by_cases hkf : r.apiKeyPresent = false
    · rw [hkf] at hk
      exact Bool.noConfusion hk
    · rcases h1 : tickerRun nid did 90 1 r.w1 40 with ⟨c1, evs1⟩
      rcases h2 : tickerRun nid did 90 1 r.w2 c1 with ⟨c2, evs2⟩
      cases hcr : r.createOk with
      | some msg =>
        simp only [generateVideoRun, if_neg hkf, h1, h2, hcr] at hleak
        exact Option.noConfusion hleak
      | none =>
        rcases h3 : videoPollLoop nid did r.polls 120 0 c2 with ⟨cf, evs3, res⟩
        cases res with
        | none =>
          simp only [generateVideoRun, if_neg hkf, h1, h2, hcr, h3] at hleak
          exact Option.noConfusion hleak
        | some res' =>
          cases res' with
          | error msg =>
            simp only [generateVideoRun, if_neg hkf, h1, h2, hcr, h3] at hleak
            exact Option.noConfusion hleak
          | ok url =>
            cases hd : r.downloadOk with
            | true =>
              simp only [generateVideoRun, if_neg hkf, h1, h2, hcr, h3, hd,
                if_pos] at hleak
              exact Option.noConfusion hleak
            | false =>
              simp only [generateVideoRun, if_neg hkf, h1, h2, hcr, h3, hd,
                Bool.false_eq_true, if_false] at hleak
              exact Option.noConfusion hleak

/-- The full emission profile of `processJob` itself: on failure every
emitted event is a `generation_progress`; on success the effects end in
the single `generation_complete` and everything before it is progress;
and with the API key present no run leaks its ticker. -/
theorem processJobRun_events (st : Store) (job : GenerationJob) (run : JobRun)
    (now : Date) :
    (∀ msg, (processJobRun st job run now).2.1 = Except.error msg →
      allProgress (processJobRun st job run now).1 = true) ∧
    (∀ u, (processJobRun st job run now).2.1 = Except.ok u →
      ∃ pre, (processJobRun st job run now).1 =
        pre ++ [Effect.emitEv (NodeEvent.generation_complete job.nodeId
          job.directionId u (some u) run.gateResult.explanationShort)] ∧
        allProgress pre = true) ∧
    (run.videoRun.apiKeyPresent = true →
      (processJobRun st job run now).2.2 = none) := by
  cases hs : st.getSession job.sessionId with
  | none =>
    have heq : processJobRun st job run now =
        ([], .error "Session not found", none) := by
      simp only [processJobRun, hs]
    rw [heq]
    exact ⟨fun msg _ => rfl, fun u hu => absurd hu (by simp), fun _ => rfl⟩
  | some session =>
  cases hf : session.directions.find? (fun d => d.id == job.directionId) with
  | none =>
    have heq : processJobRun st job run now =
        ([], .error "Direction not found", none) := by
      simp only [processJobRun, hs, hf]
    rw [heq]
    exact ⟨fun msg _ => rfl, fun u hu => absurd hu (by simp), fun _ => rfl⟩
  | some dd =>
  cases hrev : run.composeResult.needsRevision with
  | true =>
    have heq : processJobRun st job run now =
        (startEffects job.nodeId job.directionId,
          .error ("Prompt composition failed: " ++
            String.intercalate "; " run.composeResult.issues), none) := by
      simp only [processJobRun, hs, hf, hrev, if_pos]
    rw [heq]
    exact ⟨fun msg _ => rfl, fun u hu => absurd hu (by simp), fun _ => rfl⟩
  | false =>
  cases happ : run.gateResult.approved with
  | false =>
    have heq : processJobRun st job run now =
        (startEffects job.nodeId job.directionId ++
            [gateEffect job.nodeId job.directionId],
          .error ("Prompt rejected: " ++
            String.intercalate "; " run.gateResult.gateIssues), none) := by
      simp only [processJobRun, hs, hf, hrev, happ, Bool.false_eq_true,
        if_false, if_pos]
    rw [heq]
    exact ⟨fun msg _ => rfl, fun u hu => absurd hu (by simp), fun _ => rfl⟩
  | true =>
  cases hmt : job.mediaType with
  | image =>
    rcases hgi : generateImageRun job.sessionId job.nodeId job.directionId
      run.imageRun with ⟨effsI, resI⟩
    have hAI := imageRun_allProgress job.sessionId job.nodeId job.directionId
      run.imageRun
    rw [hgi] at hAI
    cases resI with
    | error msg' =>
      have heq : processJobRun st job run now =
          (startEffects job.nodeId job.directionId ++
              gateEffect job.nodeId job.directionId ::
              attachEffects job.nodeId job.directionId run.gateResult ++ effsI,
            .error msg', none) := by
        simp only [processJobRun, hs, hf, hrev, happ, hmt, hgi,
          Bool.false_eq_true, if_false]
        rw [if_neg (by simp)]
      rw [heq]
      refine ⟨?_, fun u hu => absurd hu (by simp), fun _ => rfl⟩
      intro msg _
      simp only [allProgress_append, Bool.and_eq_true]
      exact ⟨⟨rfl, rfl⟩, hAI⟩
    | ok u' =>
      have heq : processJobRun st job run now =
          (startEffects job.nodeId job.directionId ++
              gateEffect job.nodeId job.directionId ::
              attachEffects job.nodeId job.directionId run.gateResult ++ effsI ++
              finishEffects job.nodeId job.directionId u' run.gateResult now,
            .ok u', none) := by
        simp only [processJobRun, hs, hf, hrev, happ, hmt, hgi,
          Bool.false_eq_true, if_false]
        rw [if_neg (by simp)]
      rw [heq]
      refine ⟨fun msg hm => absurd hm (by simp), ?_, fun _ => rfl⟩
      intro u hu
      have hu' : u' = u := by
        injection hu
      subst hu'
      refine ⟨(startEffects job.nodeId job.directionId ++
          gateEffect job.nodeId job.directionId ::
          attachEffects job.nodeId job.directionId run.gateResult ++ effsI) ++
          [Effect.emitEv (NodeEvent.generation_progress job.nodeId
            job.directionId 95 .saving "Saving..."),
          Effect.updNode (completePatch u' now)], ?_, ?_⟩
      · simp [finishEffects, List.append_assoc]
      · simp only [allProgress_append, Bool.and_eq_true]
        exact ⟨⟨⟨rfl, rfl⟩, hAI⟩, rfl⟩
  | video =>
    rcases hgv : generateVideoRun job.sessionId job.nodeId job.directionId
      run.videoRun with ⟨effsV, resV, leakV⟩
    have hAV := videoRun_allProgress job.sessionId job.nodeId job.directionId
      run.videoRun
    rw [hgv] at hAV
    have hnl : run.videoRun.apiKeyPresent = true → leakV = none := by
      intro hk
      have h := videoRun_noleak job.sessionId job.nodeId job.directionId
        run.videoRun hk
      rw [hgv] at h
      exact h
    cases resV with
    | error msg' =>
      have heq : processJobRun st job run now =
          (startEffects job.nodeId job.directionId ++
              gateEffect job.nodeId job.directionId ::
              attachEffects job.nodeId job.directionId run.gateResult ++ effsV,
            .error msg', leakV) := by
        simp only [processJobRun, hs, hf, hrev, happ, hmt, hgv,
          Bool.false_eq_true, if_false]
        rw [if_neg (by simp)]
      rw [heq]
      refine ⟨?_, fun u hu => absurd hu (by simp), hnl⟩
      intro msg _
      simp only [allProgress_append, Bool.and_eq_true]
      exact ⟨⟨rfl, rfl⟩, hAV⟩
    | ok u' =>
      have heq : processJobRun st job run now =
          (startEffects job.nodeId job.directionId ++
              gateEffect job.nodeId job.directionId ::
              attachEffects job.nodeId job.directionId run.gateResult ++ effsV ++
              finishEffects job.nodeId job.directionId u' run.gateResult now,
            .ok u', leakV) := by
        simp only [processJobRun, hs, hf, hrev, happ, hmt, hgv,
          Bool.false_eq_true, if_false]
        rw [if_neg (by simp)]
      rw [heq]
      refine ⟨fun msg hm => absurd hm (by simp), ?_, hnl⟩
      intro u hu
      have hu' : u' = u := by
        injection hu
      subst hu'
      refine ⟨(startEffects job.nodeId job.directionId ++
          gateEffect job.nodeId job.directionId ::
          attachEffects job.nodeId job.directionId run.gateResult ++ effsV) ++
          [Effect.emitEv (NodeEvent.generation_progress job.nodeId
            job.directionId 95 .saving "Saving..."),
          Effect.updNode (completePatch u' now)], ?_, ?_⟩
      · simp [finishEffects, List.append_assoc]
      · simp only [allProgress_append, Bool.and_eq_true]
        exact ⟨⟨⟨rfl, rfl⟩, hAV⟩, rfl⟩

/-- C3 (amended): provided the OpenAI API key is configured (so the
early-throw ticker leak of `generateVideo` cannot fire after failure),
the events published for a single node are exactly one `node_created`,
then zero or more `generation_progress` events, then exactly one
terminal event (`generation_complete` or `error`).  The original
claim's non-decreasing progress values are refuted separately: the
fixed 50% "Creating image..." emission may be followed by a lower
ticker value. -/
theorem c3_event_order (st : Store) (job : GenerationJob) (run : JobRun)
    (leakTicks : Nat) (now : Date)
    (hk : run.videoRun.apiKeyPresent = true) :
    ∃ mid term,
      jobTrace st job run leakTicks now =
        NodeEvent.node_created job.nodeId job.directionId job.depth ::
          (mid ++ [term]) ∧
      (∀ e ∈ mid, isProgressEvent e = true) ∧
      isTerminalEvent term = true := by
  rcases hpr : processJobRun st job run now with ⟨effs, res, leak⟩
  have hev := processJobRun_events st job run now
  rw [hpr] at hev
  have hlk : leak = none := hev.2.2 hk
  subst hlk
  cases res with
  | ok u =>
    obtain ⟨pre, hpre, hall⟩ := hev.2.1 u rfl
    have hpre' : effs = pre ++ [Effect.emitEv (NodeEvent.generation_complete
        job.nodeId job.directionId u (some u)
        run.gateResult.explanationShort)] := hpre
    refine ⟨emittedOf pre,
      NodeEvent.generation_complete job.nodeId job.directionId u (some u)
        run.gateResult.explanationShort, ?_, ?_, rfl⟩
    · unfold jobTrace
      simp only [queueStep, hpr]
      rw [hpre', emittedOf_append]
      rfl
    · exact allProgress_emitted pre hall
  | error msg =>
    have hall : allProgress effs = true := hev.1 msg rfl
    refine ⟨emittedOf effs, NodeEvent.errorEv (some job.nodeId) msg,
      ?_, ?_, rfl⟩
    · unfold jobTrace
      simp only [queueStep, hpr]
      rw [show leakEffects job.nodeId job.directionId none leakTicks = []
          from rfl,
        List.append_nil, emittedOf_append]
      rfl
    · exact allProgress_emitted effs hall

/-- Witness: the shaped trace exists for a concrete successful image
job whose video oracle has the API key present. -/
theorem c3_event_order_witness :
    sampleRun.videoRun.apiKeyPresent = true ∧
    ∃ mid term,
      jobTrace store1n job1 sampleRun 0 epochDate =
        NodeEvent.node_created job1.nodeId job1.directionId job1.depth ::
          (mid ++ [term]) ∧
      (∀ e ∈ mid, isProgressEvent e = true) ∧
      isTerminalEvent term = true :=
  ⟨rfl, c3_event_order store1n job1 sampleRun 0 epochDate rfl⟩

/-- Counterexample to the original claim's non-decreasing progress
values: the image path emits a fixed 50% ahead of a ticker still at
41%, so the published progress sequence 5, 15, 30, 40, 50, 41, 85, 95
is not monotone. -/
theorem c3_event_order_counterexample :
    eventProgressValues (jobTrace store1n job1 sampleRun 0 epochDate) =
      [5, 15, 30, 40, 50, 41, 85, 95] ∧
    ¬ List.Chain' (fun a b => a ≤ b)
      (eventProgressValues (jobTrace store1n job1 sampleRun 0 epochDate)) := by
  have hmin : min ((40 : Rat) + (90 - 40) / 50) 90 = 41 := by norm_num
  have ht0 : tickerRun "n1" "d1" 90 ((90 - 40) / 50) 0 40 = (40, []) := rfl
  have ht1 : tickerRun "n1" "d1" 90 ((90 - 40) / 50) 1 40 =
      (41, [Effect.updNode { progress := some 41 },
        Effect.emitEv (NodeEvent.generation_progress "n1" "d1" 41 .generating
          "Generating...")]) := by
    rw [tickerRun, if_pos (by norm_num : (40 : Rat) < 90)]
    simp only [hmin]
    rfl
  have hs : store1n.getSession "s1" = some { sess1 with
      directions := [{ dir1 with
        nodes := [newNode "n1" "d1" none .image 1 epochDate] }]
      updatedAt := epochDate } := rfl
  have himg : generateImageRun "s1" "n1" "d1"
      { w1 := 0, w2 := 1, result := .success } =
      ([Effect.emitEv (NodeEvent.generation_progress "n1" "d1" 50 .generating
          "Creating image..."),
        Effect.updNode { progress := some 41 },
        Effect.emitEv (NodeEvent.generation_progress "n1" "d1" 41 .generating
          "Generating..."),
        Effect.emitEv (NodeEvent.generation_progress "n1" "d1" 85 .saving
          "Saving image...")],
      .ok "/uploads/generated/s1/n1.png") := by
    simp only [generateImageRun, ht0, ht1]
    rfl
  have hpr : processJobRun store1n job1 sampleRun epochDate =
      (startEffects "n1" "d1" ++ gateEffect "n1" "d1" ::
        attachEffects "n1" "d1" sampleGated ++
        [Effect.emitEv (NodeEvent.generation_progress "n1" "d1" 50 .generating
            "Creating image..."),
          Effect.updNode { progress := some 41 },
          Effect.emitEv (NodeEvent.generation_progress "n1" "d1" 41 .generating
            "Generating..."),
          Effect.emitEv (NodeEvent.generation_progress "n1" "d1" 85 .saving
            "Saving image...")] ++
        finishEffects "n1" "d1" "/uploads/generated/s1/n1.png" sampleGated
          epochDate,
      .ok "/uploads/generated/s1/n1.png", none) := by
    simp only [processJobRun, job1, sampleRun, hs, himg]
    rfl
  have h : eventProgressValues (jobTrace store1n job1 sampleRun 0 epochDate) =
      [5, 15, 30, 40, 50, 41, 85, 95] := by
    simp only [jobTrace, queueStep, hpr]
    rfl
  refine ⟨h, ?_⟩
  rw [h]
  intro hc
  simp only [List.chain'_cons] at hc
  exact absurd hc.2.2.2.2.1 (by norm_num)

/-! ## Queue-invariant lemmas -/

theorem setStatus_map_id (jobs : List QJob) (i : Nat) (st : JobStatus) :
    (setStatus jobs i st).map QJob.id = jobs.map QJob.id := by
  unfold setStatus
  rw [List.map_map]
  apply List.map_congr_left
  intro j _
  by_cases h : j.id = i
  · simp [Function.comp, h]
  · simp [Function.comp, h]

theorem two_mem_le_length (l : List (Option Nat)) (x y : Option Nat)
    (hx : x ∈ l) (hy : y ∈ l) (hxy : x ≠ y) : 2 ≤ l.length := by
  match l with
  | [] => exact absurd hx (List.not_mem_nil x)
  | [z] =>
    rw [List.mem_singleton] at hx hy
    exact absurd (hx.trans hy.symm) hxy
  | a :: b :: t =>
    simp only [List.length_cons]
    omega

theorem QInv_init : QInv initQueueState :=
  ⟨fun _ => rfl, by simp [initQueueState], by simp [initQueueState],
    by simp [initQueueState]⟩

theorem QInv_step (s s' : QueueState) (hinv : QInv s) (hst : QStep s s') :
    QInv s' := by
  obtain ⟨h1, h2, h3, h4⟩ := hinv
  cases hst with
  | enqueue i hfresh =>
    refine ⟨fun hf => h1 hf, h2, ?_, ?_⟩
    · rw [List.map_append]
      refine List.Nodup.append h3 (List.nodup_singleton i) ?_
      intro a ha hb
      simp only [List.map_cons, List.map_nil, List.mem_singleton] at hb
      subst hb
      obtain ⟨j, hj, hji⟩ := List.mem_map.mp ha
      exact hfresh j hj hji
    · intro j hj hp
      rcases List.mem_append.mp hj with hj' | hj'
      · exact h4 j hj' hp
      · rw [List.mem_singleton] at hj'
        subst hj'
        exact absurd hp (by simp)
  | workerEnter h =>
    refine ⟨?_, ?_, h3, ?_⟩
    · intro hf
      exact absurd hf (by simp)
    · rw [List.length_append, h1 h]
      simp
    · intro j hj hp
      exact List.mem_append_left _ (h4 j hj hp)
  | workerPop i restQ pre post hrun hq =>
    refine ⟨?_, ?_, ?_, ?_⟩
    · intro hf
      rw [h1 hf] at hrun
      simp at hrun
    · have h2' := h2
      rw [hrun] at h2'
      simpa using h2'
    · rw [setStatus_map_id]
      exact h3
    · intro j hj hp
      simp only [setStatus, List.mem_map] at hj
      obtain ⟨j0, hj0, rfl⟩ := hj
      by_cases hid : j0.id = i
      · rw [if_pos hid]
        simp [hid]
      · rw [if_neg hid] at hp ⊢
        have hm := h4 j0 hj0 hp
        rw [hrun] at hm
        rcases List.mem_append.mp hm with hmm | hmm
        · exact List.mem_append_left _ hmm
        · rcases List.mem_cons.mp hmm with heq | hmm'
          · exact Option.noConfusion heq
          · exact List.mem_append_right _ (List.mem_cons_of_mem _ hmm')
  | workerFinish i ok pre post hrun =>
    refine ⟨?_, ?_, ?_, ?_⟩
    · intro hf
      rw [h1 hf] at hrun
      simp at hrun
    · have h2' := h2
      rw [hrun] at h2'
      simpa using h2'
    · rw [setStatus_map_id]
      exact h3
    · intro j hj hp
      simp only [setStatus, List.mem_map] at hj
      obtain ⟨j0, hj0, rfl⟩ := hj
      by_cases hid : j0.id = i
      · rw [if_pos hid] at hp
        cases ok with
        | true => exact absurd hp (by simp)
        | false => exact absurd hp (by simp)
      · rw [if_neg hid] at hp ⊢
        have hm := h4 j0 hj0 hp
        rw [hrun] at hm
        rcases List.mem_append.mp hm with hmm | hmm
        · exact List.mem_append_left _ hmm
        · rcases List.mem_cons.mp hmm with heq | hmm'
          · exact absurd (Option.some.inj heq) hid
          · exact List.mem_append_right _ (List.mem_cons_of_mem _ hmm')
  | workerExit pre post hrun hq =>
    refine ⟨?_, ?_, h3, ?_⟩
    · intro _
      have h2' := h2
      rw [hrun] at h2'
      simp only [List.length_append, List.length_cons] at h2'
      have hp0 : pre = [] := List.length_eq_zero.mp (by omega)
      have hq0 : post = [] := List.length_eq_zero.mp (by omega)
      subst hp0
      subst hq0
      rfl
    · have h2' := h2
      rw [hrun] at h2'
      simp only [List.length_append, List.length_cons] at h2' ⊢
      omega
    · intro j hj hp
      have hm := h4 j hj hp
      rw [hrun] at hm
      rcases List.mem_append.mp hm with hmm | hmm
      · exact List.mem_append_left _ hmm
      · rcases List.mem_cons.mp hmm with heq | hmm'
        · exact Option.noConfusion heq
        · exact List.mem_append_right _ hmm'

theorem QReach_QInv (s : QueueState) (h : QReach s) : QInv s := by
  induction h with
  | refl => exact QInv_init
  | tail hab hbc ih => exact QInv_step _ _ ih hbc

theorem QInv_processingCount (s : QueueState) (hinv : QInv s) :
    processingCount s.jobs ≤ 1 := by
  obtain ⟨-, h2, h3, h4⟩ := hinv
  by_contra hc
  push_neg at hc
  rw [processingCount, List.countP_eq_length_filter] at hc
  rcases hfe : s.jobs.filter (fun j => j.status == JobStatus.processing) with
    _ | ⟨a, _ | ⟨b, t⟩⟩
  · rw [hfe] at hc
    simp at hc
  · rw [hfe] at hc
    simp at hc
  · have hsub : (s.jobs.filter
        (fun j => j.status == JobStatus.processing)).Sublist s.jobs :=
      List.filter_sublist s.jobs
    rw [hfe] at hsub
    have hnodupf : ((a :: b :: t).map QJob.id).Nodup :=
      h3.sublist (hsub.map QJob.id)
    have haf : a ∈ s.jobs.filter (fun j => j.status == JobStatus.processing) := by
      rw [hfe]
      simp
    have hbf : b ∈ s.jobs.filter (fun j => j.status == JobStatus.processing) := by
      rw [hfe]
      simp
    have hab : a.id ≠ b.id := by
      simp only [List.map_cons, List.nodup_cons] at hnodupf
      intro h
      exact hnodupf.1 (by rw [h]; exact List.mem_cons_self _ _)
    have hap : a.status = JobStatus.processing := by
      have := List.of_mem_filter haf
      simpa using this
    have hbp : b.status = JobStatus.processing := by
      have := List.of_mem_filter hbf
      simpa using this
    have hma : some a.id ∈ s.running :=
      h4 a ((List.filter_sublist s.jobs).subset haf) hap
    have hmb : some b.id ∈ s.running :=
      h4 b ((List.filter_sublist s.jobs).subset hbf) hbp
    have := two_mem_le_length s.running (some a.id) (some b.id) hma hmb
      (by intro h; exact hab (Option.some.inj h))
    omega

/-- C2: in every reachable state of the queue subsystem — over all
interleavings of `enqueueGeneration` calls and `processQueue` worker
steps — at most one generation job is in the processing stages: the
`isProcessing` guard admits a single worker activation and jobs are
drained one at a time from the FIFO queue. -/
theorem c2_single_processing (s : QueueState) (h : QReach s) :
    processingCount s.jobs ≤ 1 :=
  QInv_processingCount s (QReach_QInv s h)

/-- Witness: the state reached by enqueueing one job, entering the
worker and popping the job is reachable and has one processing job. -/
theorem c2_single_processing_witness :
    QReach { jobs := [⟨0, JobStatus.processing⟩], queue := [], isProcessing := true, running := [some 0] } ∧
    processingCount ({ jobs := [⟨0, JobStatus.processing⟩], queue := [], isProcessing := true, running := [some 0] } : QueueState).jobs ≤ 1 := by
  have s1 : QStep initQueueState { jobs := [⟨0, JobStatus.queued⟩], queue := [0], isProcessing := false, running := [] } :=
    QStep.enqueue initQueueState 0 (fun j hj => absurd hj (List.not_mem_nil j))
  have s2 : QStep { jobs := [⟨0, JobStatus.queued⟩], queue := [0], isProcessing := false, running := [] } { jobs := [⟨0, JobStatus.queued⟩], queue := [0], isProcessing := true, running := [none] } :=
    QStep.workerEnter _ rfl
  have s3 : QStep { jobs := [⟨0, JobStatus.queued⟩], queue := [0], isProcessing := true, running := [none] } { jobs := [⟨0, JobStatus.processing⟩], queue := [], isProcessing := true, running := [some 0] } :=
    QStep.workerPop _ 0 [] [] [] rfl rfl
  have hreach : QReach { jobs := [⟨0, JobStatus.processing⟩], queue := [], isProcessing := true, running := [some 0] } :=
    Relation.ReflTransGen.tail (Relation.ReflTransGen.tail
      (Relation.ReflTransGen.single s1) s2) s3
  exact ⟨hreach, c2_single_processing _ hreach⟩

/-! ## ISO timestamp round-trip lemmas -/

theorem digitVal_digitChar (k : Nat) (h : k < 10) :
    digitVal (digitChar k) = some k := by
  interval_cases k <;> decide

theorem parse2_pad2 (n : Nat) (rest : List Char) :
    parse2 (pad2 n ++ rest) = some (n % 100, rest) := by
  have h1 := digitVal_digitChar (n / 10 % 10) (Nat.mod_lt _ (by norm_num))
  have h2 := digitVal_digitChar (n % 10) (Nat.mod_lt _ (by norm_num))
  simp only [pad2, List.cons_append, List.nil_append, parse2, h1, h2,
    Option.bind_eq_bind, Option.some_bind]
  have harith : 10 * (n / 10 % 10) + n % 10 = n % 100 := by omega
  rw [harith]
  rfl

theorem parse3_pad3 (n : Nat) (rest : List Char) :
    parse3 (pad3 n ++ rest) = some (n % 1000, rest) := by
  have h1 := digitVal_digitChar (n / 100 % 10) (Nat.mod_lt _ (by norm_num))
  have h2 := digitVal_digitChar (n / 10 % 10) (Nat.mod_lt _ (by norm_num))
  have h3 := digitVal_digitChar (n % 10) (Nat.mod_lt _ (by norm_num))
  simp only [pad3, List.cons_append, List.nil_append, parse3, h1, h2, h3,
    Option.bind_eq_bind, Option.some_bind]
  have harith : 100 * (n / 100 % 10) + 10 * (n / 10 % 10) + n % 10 =
      n % 1000 := by omega
  rw [harith]
  rfl

theorem parse4_pad4 (n : Nat) (rest : List Char) :
    parse4 (pad4 n ++ rest) = some (n % 10000, rest) := by
  have h1 := digitVal_digitChar (n / 1000 % 10) (Nat.mod_lt _ (by norm_num))
  have h2 := digitVal_digitChar (n / 100 % 10) (Nat.mod_lt _ (by norm_num))
  have h3 := digitVal_digitChar (n / 10 % 10) (Nat.mod_lt _ (by norm_num))
  have h4 := digitVal_digitChar (n % 10) (Nat.mod_lt _ (by norm_num))
  simp only [pad4, List.cons_append, List.nil_append, parse4, h1, h2, h3, h4,
    Option.bind_eq_bind, Option.some_bind]
  have harith : 1000 * (n / 1000 % 10) + 100 * (n / 100 % 10) +
      10 * (n / 10 % 10) + n % 10 = n % 10000 := by omega
  rw [harith]
  rfl

theorem expectChar_cons (c : Char) (rest : List Char) :
    expectChar c (c :: rest) = some rest := by
  simp [expectChar]

theorem parseMsTail_pad (ms : Nat) :
    parseMsTail ('.' :: (pad3 ms ++ ['Z'])) = some (ms % 1000) := by
  rw [show parseMsTail ('.' :: (pad3 ms ++ ['Z'])) =
      (do
        let (p, t) ← parse3 (pad3 ms ++ ['Z'])
        if t = [] ∨ t = ['Z'] then pure p else none) from rfl]
  rw [parse3_pad3]
  simp only [Option.bind_eq_bind, Option.some_bind]
  simp

theorem mkFin_mod_val (b : Nat) (hb : 0 < b) (x : Fin b) :
    mkFin b hb (x.val % b) = x := by
  apply Fin.ext
  show x.val % b % b = x.val
  rw [Nat.mod_eq_of_lt x.isLt, Nat.mod_eq_of_lt x.isLt]

theorem isoChars_assoc (d : Date) :
    isoChars d =
      pad4 d.year ++ '-' :: (pad2 d.month ++ '-' :: (pad2 d.day ++
        'T' :: (pad2 d.hour ++ ':' :: (pad2 d.minute ++ ':' :: (pad2 d.second ++
        '.' :: (pad3 d.millis ++ ['Z'])))))) := by
  simp [isoChars, List.append_assoc]

theorem parseIsoChars_iso (d : Date) : parseIsoChars (isoChars d) = some d := by
  rw [isoChars_assoc]
  simp only [parseIsoChars, parse4_pad4, parse2_pad2, parse3_pad3,
    expectChar_cons, parseMsTail_pad, Option.bind_eq_bind, Option.some_bind]
  rw [mkFin_mod_val, mkFin_mod_val, mkFin_mod_val, mkFin_mod_val,
    mkFin_mod_val, mkFin_mod_val, mkFin_mod_val]
  rfl

theorem matchesTimestamp_iso (d : Date) :
    matchesTimestamp (isoChars d) = true := by
  rw [isoChars_assoc]
  simp only [matchesTimestamp, parse4_pad4, parse2_pad2, expectChar_cons,
    Option.bind_eq_bind, Option.some_bind]
  rfl

/-! ## Structural round-trip of stringify and revive -/

theorem cleanList_mem (l : List JValue) (h : cleanJ.cleanList l = true) :
    ∀ x ∈ l, cleanJ x = true := by
  induction l with
  | nil => intro x hx; exact absurd hx (List.not_mem_nil x)
  | cons y ys ih =>
    rw [show cleanJ.cleanList (y :: ys) = (cleanJ y && cleanJ.cleanList ys)
        from rfl, Bool.and_eq_true] at h
    intro x hx
    rcases List.mem_cons.mp hx with rfl | hx'
    · exact h.1
    · exact ih h.2 x hx'

theorem cleanFields_mem (l : List (String × JValue))
    (h : cleanJ.cleanFields l = true) : ∀ kv ∈ l, cleanJ kv.2 = true := by
  induction l with
  | nil => intro kv hkv; exact absurd hkv (List.not_mem_nil kv)
  | cons y ys ih =>
    obtain ⟨k, v⟩ := y
    rw [show cleanJ.cleanFields ((k, v) :: ys) =
        (cleanJ v && cleanJ.cleanFields ys) from rfl, Bool.and_eq_true] at h
    intro kv hkv
    rcases List.mem_cons.mp hkv with rfl | hkv'
    · exact h.1
    · exact ih h.2 kv hkv'

theorem validList_mem (l : List JValue) (h : validDates.validList l = true) :
    ∀ x ∈ l, validDates x = true := by
  induction l with
  | nil => intro x hx; exact absurd hx (List.not_mem_nil x)
  | cons y ys ih =>
    rw [show validDates.validList (y :: ys) =
        (validDates y && validDates.validList ys) from rfl,
      Bool.and_eq_true] at h
    intro x hx
    rcases List.mem_cons.mp hx with rfl | hx'
    · exact h.1
    · exact ih h.2 x hx'

theorem validFields_mem (l : List (String × JValue))
    (h : validDates.validFields l = true) : ∀ kv ∈ l, validDates kv.2 = true := by
  induction l with
  | nil => intro kv hkv; exact absurd hkv (List.not_mem_nil kv)
  | cons y ys ih =>
    obtain ⟨k, v⟩ := y
    rw [show validDates.validFields ((k, v) :: ys) =
        (validDates v && validDates.validFields ys) from rfl,
      Bool.and_eq_true] at h
    intro kv hkv
    rcases List.mem_cons.mp hkv with rfl | hkv'
    · exact h.1
    · exact ih h.2 kv hkv'

theorem reviveList_stringifyList (l : List JValue)
    (h : ∀ x ∈ l, reviveJ (stringifyJ x) = x) :
    reviveJ.reviveList (stringifyJ.stringifyList l) = l := by
  induction l with
  | nil => rfl
  | cons x xs ih =>
    rw [show stringifyJ.stringifyList (x :: xs) =
        stringifyJ x :: stringifyJ.stringifyList xs from rfl,
      show reviveJ.reviveList (stringifyJ x :: stringifyJ.stringifyList xs) =
        reviveJ (stringifyJ x) ::
          reviveJ.reviveList (stringifyJ.stringifyList xs) from rfl,
      h x (List.mem_cons_self x xs),
      ih (fun y hy => h y (List.mem_cons_of_mem x hy))]

theorem reviveFields_stringifyFields (l : List (String × JValue))
    (h : ∀ kv ∈ l, reviveJ (stringifyJ kv.2) = kv.2) :
    reviveJ.reviveFields (stringifyJ.stringifyFields l) = l := by
  induction l with
  | nil => rfl
  | cons y ys ih =>
    obtain ⟨k, v⟩ := y
    rw [show stringifyJ.stringifyFields ((k, v) :: ys) =
        (k, stringifyJ v) :: stringifyJ.stringifyFields ys from rfl,
      show reviveJ.reviveFields ((k, stringifyJ v) ::
          stringifyJ.stringifyFields ys) =
        (k, reviveJ (stringifyJ v)) ::
          reviveJ.reviveFields (stringifyJ.stringifyFields ys) from rfl,
      h (k, v) (List.mem_cons_self _ ys),
      ih (fun kv hkv => h kv (List.mem_cons_of_mem _ hkv))]

theorem revive_stringify_aux :
    ∀ n : Nat, ∀ v : JValue, sizeOf v ≤ n → cleanJ v = true →
      validDates v = true → reviveJ (stringifyJ v) = v := by
  intro n
  induction n with
  | zero =>
    intro v hv _ _
    exact absurd hv (by cases v <;> simp)
  | succ n ih =>
    intro v hv hc hd
    cases v with
    | jnull => rfl
    | jbool b => rfl
    | jnum q => rfl
    | jstr s =>
      have hm : matchesTimestamp s.data = false := by
        simpa [cleanJ] using hc
      rw [show stringifyJ (JValue.jstr s) = JValue.jstr s from rfl]
      rw [show reviveJ (JValue.jstr s) =
          (if matchesTimestamp s.data then JValue.jdate (parseIsoChars s.data)
            else JValue.jstr s) from rfl]
      rw [if_neg (by rw [hm]; exact Bool.false_ne_true)]
    | jdate d =>
      cases d with
      | none => exact absurd hd (by simp [validDates])
      | some dd =>
        rw [show stringifyJ (JValue.jdate (some dd)) =
            JValue.jstr dd.toIso from rfl]
        rw [show reviveJ (JValue.jstr dd.toIso) =
            (if matchesTimestamp (Date.toIso dd).data then
              JValue.jdate (parseIsoChars (Date.toIso dd).data)
            else JValue.jstr dd.toIso) from rfl]
        rw [show (Date.toIso dd).data = isoChars dd from rfl]
        rw [if_pos (by rw [matchesTimestamp_iso])]
        rw [parseIsoChars_iso]
    | jarr xs =>
      have hsz : sizeOf xs ≤ n := by
        have : sizeOf (JValue.jarr xs) = 1 + sizeOf xs := by simp
        omega
      have hmem : ∀ x ∈ xs, reviveJ (stringifyJ x) = x := by
        intro x hx
        have h1 : sizeOf x < sizeOf xs := List.sizeOf_lt_of_mem hx
        exact ih x (by omega) (cleanList_mem xs hc x hx)
          (validList_mem xs hd x hx)
      rw [show stringifyJ (JValue.jarr xs) =
          JValue.jarr (stringifyJ.stringifyList xs) from rfl]
      rw [show reviveJ (JValue.jarr (stringifyJ.stringifyList xs)) =
          JValue.jarr (reviveJ.reviveList (stringifyJ.stringifyList xs))
          from rfl]
      rw [reviveList_stringifyList xs hmem]
    | jobj fs =>
      have hsz : sizeOf fs ≤ n := by
        have : sizeOf (JValue.jobj fs) = 1 + sizeOf fs := by simp
        omega
      have hmem : ∀ kv ∈ fs, reviveJ (stringifyJ kv.2) = kv.2 := by
        intro kv hkv
        have h1 : sizeOf kv < sizeOf fs := List.sizeOf_lt_of_mem hkv
        have h2 : sizeOf kv.2 < sizeOf kv := by
          obtain ⟨k, v⟩ := kv
          simp
        exact ih kv.2 (by omega) (cleanFields_mem fs hc kv hkv)
          (validFields_mem fs hd kv hkv)
      rw [show stringifyJ (JValue.jobj fs) =
          JValue.jobj (stringifyJ.stringifyFields fs) from rfl]
      rw [show reviveJ (JValue.jobj (stringifyJ.stringifyFields fs)) =
          JValue.jobj (reviveJ.reviveFields (stringifyJ.stringifyFields fs))
          from rfl]
      rw [reviveFields_stringifyFields fs hmem]

theorem revive_stringify (v : JValue) (hc : cleanJ v = true)
    (hd : validDates v = true) : reviveJ (stringifyJ v) = v :=
  revive_stringify_aux (sizeOf v) v (Nat.le_refl _) hc hd

/-! ## Valid dates in serialized sessions -/

theorem vd_jobj_forall (fs : List (String × JValue))
    (h : ∀ kv ∈ fs, validDates kv.2 = true) :
    validDates (JValue.jobj fs) = true := by
  induction fs with
  | nil => rfl
  | cons kv t ih =>
    obtain ⟨k, v⟩ := kv
    rw [show validDates (JValue.jobj ((k, v) :: t)) =
        (validDates v && validDates (JValue.jobj t)) from rfl,
      Bool.and_eq_true]
    exact ⟨h (k, v) (List.mem_cons_self _ _),
      ih fun kv hkv => h kv (List.mem_cons_of_mem _ hkv)⟩

theorem vd_jarr_forall (xs : List JValue)
    (h : ∀ x ∈ xs, validDates x = true) :
    validDates (JValue.jarr xs) = true := by
  induction xs with
  | nil => rfl
  | cons x t ih =>
    rw [show validDates (JValue.jarr (x :: t)) =
        (validDates x && validDates (JValue.jarr t)) from rfl,
      Bool.and_eq_true]
    exact ⟨h x (List.mem_cons_self _ _),
      ih fun y hy => h y (List.mem_cons_of_mem _ hy)⟩

theorem vd_strArrJ (l : List String) : validDates (strArrJ l) = true := by
  unfold strArrJ
  apply vd_jarr_forall
  intro x hx
  obtain ⟨a, -, rfl⟩ := List.mem_map.mp hx
  rfl

theorem vd_optStrJ (o : Option String) : validDates (optStrJ o) = true := by
  cases o <;> rfl

theorem vd_recordJ (l : List (String × Rat)) : validDates (recordJ l) = true := by
  unfold recordJ
  apply vd_jobj_forall
  intro kv hkv
  obtain ⟨a, -, rfl⟩ := List.mem_map.mp hkv
  rfl

theorem vd_axisToJ (a : SalienceAxis) : validDates (axisToJ a) = true := rfl

theorem vd_deltaToJ (d : AxisDelta) : validDates (deltaToJ d) = true := rfl

theorem vd_profileToJ (p : SalienceProfile) :
    validDates (profileToJ p) = true := by
  unfold profileToJ
  apply vd_jobj_forall
  intro kv hkv
  simp only [List.mem_cons, List.not_mem_nil, or_false] at hkv
  rcases hkv with rfl | rfl | rfl | rfl | rfl | rfl | rfl | rfl
  · exact vd_jarr_forall _ (fun x hx => by
      obtain ⟨a, -, rfl⟩ := List.mem_map.mp hx
      exact vd_axisToJ a)
  · exact vd_strArrJ _
  · exact vd_strArrJ _
  · exact vd_strArrJ _
  · exact vd_strArrJ _
  · exact vd_strArrJ _
  · rfl
  · rfl

theorem vd_vectorToJ (v : DirectionVector) :
    validDates (vectorToJ v) = true := by
  unfold vectorToJ
  apply vd_jobj_forall
  intro kv hkv
  simp only [List.mem_cons, List.not_mem_nil, or_false] at hkv
  rcases hkv with rfl | rfl | rfl | rfl
  · exact vd_jarr_forall _ (fun x hx => by
      obtain ⟨a, -, rfl⟩ := List.mem_map.mp hx
      exact vd_deltaToJ a)
  · exact vd_jarr_forall _ (fun x hx => by
      obtain ⟨a, -, rfl⟩ := List.mem_map.mp hx
      exact vd_deltaToJ a)
  · exact vd_strArrJ _
  · exact vd_strArrJ _

theorem vd_skeletonToJ (k : PromptSkeleton) :
    validDates (skeletonToJ k) = true := by
  unfold skeletonToJ
  apply vd_jobj_forall
  intro kv hkv
  simp only [List.mem_cons, List.not_mem_nil, or_false] at hkv
  rcases hkv with rfl | rfl | rfl | rfl
  · rfl
  · rfl
  · rfl
  · exact vd_strArrJ _

theorem vd_metaToJ (m : PromptMeta) : validDates (metaToJ m) = true := by
  unfold metaToJ
  apply vd_jobj_forall
  intro kv hkv
  rcases List.mem_append.mp hkv with h' | h'
  · rcases List.mem_append.mp h' with h'' | h''
    · simp only [List.mem_cons, List.not_mem_nil, or_false] at h''
      rcases h'' with rfl | rfl | rfl | rfl <;> rfl
    · cases hd : m.duration with
      | some q =>
        rw [hd] at h''
        simp only [List.mem_cons, List.not_mem_nil, or_false] at h''
        subst h''
        rfl
      | none =>
        rw [hd] at h''
        exact absurd h'' (List.not_mem_nil kv)
  · cases hf : m.fps with
    | some q =>
      rw [hf] at h'
      simp only [List.mem_cons, List.not_mem_nil, or_false] at h'
      subst h'
      rfl
    | none =>
      rw [hf] at h'
      exact absurd h' (List.not_mem_nil kv)

theorem vd_optMetaJ (o : Option PromptMeta) : validDates (optMetaJ o) = true := by
  cases o with
  | some m => exact vd_metaToJ m
  | none => rfl

theorem vd_nodeToJ (n : GenerationNode) : validDates (nodeToJ n) = true := by
  unfold nodeToJ
  apply vd_jobj_forall
  intro kv hkv
  rcases List.mem_append.mp hkv with h' | h'
  · rcases List.mem_append.mp h' with h'' | h''
    · simp only [List.mem_cons, List.not_mem_nil, or_false] at h''
      rcases h'' with rfl | rfl | rfl | rfl | rfl | rfl | rfl | rfl | rfl |
        rfl | rfl | rfl | rfl
      · rfl
      · rfl
      · rfl
      · rfl
      · rfl
      · rfl
      · exact vd_optStrJ _
      · exact vd_optMetaJ _
      · exact vd_strArrJ _
      · exact vd_optStrJ _
      · exact vd_optStrJ _
      · exact vd_optStrJ _
      · rfl
    · cases hs : n.streamingContent with
      | some s =>
        rw [hs] at h''
        simp only [List.mem_cons, List.not_mem_nil, or_false] at h''
        subst h''
        rfl
      | none =>
        rw [hs] at h''
        exact absurd h'' (List.not_mem_nil kv)
  · simp only [List.mem_cons, List.not_mem_nil, or_false] at h'
    rcases h' with rfl | rfl | rfl | rfl | rfl | rfl
    · exact vd_optStrJ _
    · rfl
    · exact vd_optStrJ _
    · exact vd_jarr_forall _ (fun x hx => by
        obtain ⟨a, -, rfl⟩ := List.mem_map.mp hx
        exact vd_deltaToJ a)
    · rfl
    · cases n.completedAt <;> rfl

theorem vd_directionToJ (d : Direction) :
    validDates (directionToJ d) = true := by
  unfold directionToJ
  apply vd_jobj_forall
  intro kv hkv
  simp only [List.mem_cons, List.not_mem_nil, or_false] at hkv
  rcases hkv with rfl | rfl | rfl | rfl | rfl | rfl | rfl | rfl
  · rfl
  · rfl
  · rfl
  · rfl
  · exact vd_vectorToJ _
  · exact vd_skeletonToJ _
  · exact vd_jarr_forall _ (fun x hx => by
      obtain ⟨a, -, rfl⟩ := List.mem_map.mp hx
      exact vd_nodeToJ a)
  · rfl

theorem vd_prefsToJ (p : PreferenceState) : validDates (prefsToJ p) = true := by
  unfold prefsToJ
  apply vd_jobj_forall
  intro kv hkv
  simp only [List.mem_cons, List.not_mem_nil, or_false] at hkv
  rcases hkv with rfl | rfl | rfl | rfl
  · exact vd_recordJ _
  · rfl
  · exact vd_recordJ _
  · rfl

theorem vd_sessionToJ (s : Session) : validDates (sessionToJ s) = true := by
  unfold sessionToJ
  apply vd_jobj_forall
  intro kv hkv
  simp only [List.mem_cons, List.not_mem_nil, or_false] at hkv
  rcases hkv with rfl | rfl | rfl | rfl | rfl | rfl | rfl | rfl | rfl | rfl
  · rfl
  · rfl
  · rfl
  · exact vd_strArrJ _
  · rfl
  · cases s.salienceProfile with
    | some p => exact vd_profileToJ p
    | none => rfl
  · exact vd_jarr_forall _ (fun x hx => by
      obtain ⟨a, -, rfl⟩ := List.mem_map.mp hx
      exact vd_directionToJ a)
  · exact vd_prefsToJ _
  · rfl
  · rfl

/-- C8 (amended): serializing a session to its durable JSON document
(`JSON.stringify`, dates to ISO strings) and reloading it with the
store's reviver yields the identical value tree — every field equal and
every date field reconstructed as a date value — provided none of the
session's plain string fields itself matches the reviver's timestamp
prefix regex.  Without that proviso the round-trip is not the identity:
the reviver turns any matching string (e.g. a caption) into a Date. -/
theorem c8_roundtrip (s : Session)
    (hclean : cleanJ (sessionToJ s) = true) :
    reviveJ (stringifyJ (sessionToJ s)) = sessionToJ s :=
  revive_stringify (sessionToJ s) hclean (vd_sessionToJ s)

/-- Witness: the fixture session round-trips unchanged. -/
theorem c8_roundtrip_witness :
    cleanJ (sessionToJ sess1) = true ∧
    reviveJ (stringifyJ (sessionToJ sess1)) = sessionToJ sess1 :=
  ⟨rfl, c8_roundtrip sess1 rfl⟩

/-- Counterexample to the original claim: a session whose caption is the
string "2025-01-10T00:00:00" does not survive the round-trip — the
reviver's regex matches the caption and replaces the string with a Date
value. -/
theorem c8_roundtrip_counterexample :
    jGet (sessionToJ sessBadCaption) "caption" =
      some (JValue.jstr "2025-01-10T00:00:00") ∧
    jGet (reviveJ (stringifyJ (sessionToJ sessBadCaption))) "caption" =
      some (JValue.jdate (some (⟨2025, 1, 10, 0, 0, 0, 0⟩ : Date))) ∧
    reviveJ (stringifyJ (sessionToJ sessBadCaption)) ≠
      sessionToJ sessBadCaption := by
  refine ⟨rfl, rfl, ?_⟩
  intro h
  have hprobe : jGet (reviveJ (stringifyJ (sessionToJ sessBadCaption)))
      "caption" = jGet (sessionToJ sessBadCaption) "caption" := by rw [h]
  rw [show jGet (reviveJ (stringifyJ (sessionToJ sessBadCaption))) "caption" =
      some (JValue.jdate (some (⟨2025, 1, 10, 0, 0, 0, 0⟩ : Date))) from rfl,
    show jGet (sessionToJ sessBadCaption) "caption" =
      some (JValue.jstr "2025-01-10T00:00:00") from rfl] at hprobe
  simp at hprobe

end SelfExciting
